import Mathlib

/-!
# SeqSleuth — read-name technology classification and metadata extraction

A shallow embedding of the core of the SeqSleuth repository:

* `src/seqsleuth/extractors/seqtech.py` — the per-technology read-name grammars
  (`Illumina`, `PacBio`, `OxfordNanopore`, `TenXGenomicsLinkedReads`,
  `DovetailSeqTech`, `OtherSeqTech`, `UnknownSeqTech`);
* `src/seqsleuth/seqtech.py` — an older draft of the same module (it differs in
  the PacBio movie-name extraction and in the patterns), embedded where a claim
  cites it;
* `src/seqsleuth/extractors/readnames.py` — `ReadNameMetadataExtractor`:
  the sequential per-read driver and the set-based aggregation;
* `src/seqsleuth/extract_metadata.py` and `src/seqsleuth/seqtech.py` —
  `MetadataExtractor.extract_metadata`, the path used by `main.py`;
* `src/seqsleuth/main.py` — the `process_file` metadata branch;
* `src/seqsleuth/predict_tech_from_fastq.py` — the filename classifier wrapper
  (its `try` body is elided in the source, see below) and the read-name
  fallback classifier `TechnologyPredictor.predict_technology_based_on_read_names`.

Python dictionaries are modelled as insertion-ordered association lists with
unique keys (`dictInsert` updates in place, otherwise appends — exactly the
Python 3.7+ dict semantics).  Python values are `PyValue` (strings, ints, and
lists; lists are unhashable, which matters for the aggregation's `set.add`).
Fallible Python code is `Except PyErr`.  CPython's `re` patterns that appear in
the source are compiled by hand into decidable structural matchers; each
matcher carries a comment with the original pattern and the reasoning for the
translation.  `.` is modelled as any character other than `'\n'`, `$` as
end-of-string (read names never carry a trailing newline), and the ASCII
reading of `\w`, `\d`, `\s` is used (the read names the repository handles
are ASCII).
-/

set_option maxRecDepth 4000

/-- A Python runtime exception, by class. -/
inductive PyErr where
  | valueError
  | indexError
  | typeError
  | nameError
  | notImplementedError
deriving DecidableEq, Repr

instance {ε α : Type} [DecidableEq ε] [DecidableEq α] : DecidableEq (Except ε α) :=
  fun x y =>
    match x, y with
    | .ok a, .ok b => decidable_of_iff (a = b) (by simp)
    | .error e, .error f => decidable_of_iff (e = f) (by simp)
    | .ok _, .error _ => isFalse (fun h => Except.noConfusion h)
    | .error _, .ok _ => isFalse (fun h => Except.noConfusion h)

/-- A hashable Python value as the grammars produce them: a string or an
`int`.  These are the only values that can live inside the aggregation's
`set()`s. -/
inductive PyScalar where
  | str (s : String)
  | int (n : Int)
deriving DecidableEq, Repr

/-- A Python value as it occurs in the metadata dictionaries: a scalar, or a
list of scalars.  Lists arise only from `list(value_set)` in the aggregation,
and a `set` can only ever hold scalars (adding a list raises `TypeError`), so
lists never nest in this program. -/
inductive PyValue where
  | scalar (v : PyScalar)
  | list (vs : List PyScalar)
deriving DecidableEq, Repr

def vstr (s : String) : PyValue := .scalar (.str s)

def vint (n : Int) : PyValue := .scalar (.int n)

/-- Python `hash(v)` succeeds exactly on non-list values here; `set.add` on a
list raises `TypeError: unhashable type: 'list'`. -/
def hashable : PyValue → Bool
  | .list _ => false
  | _ => true

/-- A Python dict (string keys), as an insertion-ordered association list. -/
abbrev Dict := List (String × PyValue)

/-- First-match association-list lookup (Python `d[k]` / `k in d`). -/
def lookupA {α : Type} : List (String × α) → String → Option α
  | [], _ => none
  | (k', v) :: rest, k => if k' = k then some v else lookupA rest k

/-- Python `d[k] = v`: update in place if the key exists, else append. -/
def dictInsert : Dict → String → PyValue → Dict
  | [], k, v => [(k, v)]
  | (k', v') :: rest, k, v =>
      if k' = k then (k, v) :: rest else (k', v') :: dictInsert rest k v

/-- Python `d.pop(k, None)`: drop the key if present. -/
def dictPop : Dict → String → Dict
  | [], _ => []
  | (k', v') :: rest, k =>
      if k' = k then rest else (k', v') :: dictPop rest k

/-- Python `d.get(k, default)`. -/
def dictGetD (d : Dict) (k : String) (dflt : PyValue) : PyValue :=
  (lookupA d k).getD dflt

/-- Python `l[n]`: `IndexError` when out of range. -/
def listIdx {α : Type} (l : List α) (n : Nat) : Except PyErr α :=
  match l.get? n with
  | some a => .ok a
  | none => .error .indexError

/-! ## Character classes and splitting -/

/-- Python `str.isspace` / regex `\s` (ASCII reading). -/
def pyIsSpace (c : Char) : Bool :=
  c = ' ' || c = '\t' || c = '\n' || c = '\r' || c = '\x0b' || c = '\x0c'

/-- Regex `\w` (ASCII reading): letters, digits, underscore. -/
def isWordChar (c : Char) : Bool :=
  c.isAlpha || c.isDigit || c = '_'

/-- Regex `[0-9a-f]`: a lowercase hex digit. -/
def isHexLower (c : Char) : Bool :=
  c.isDigit || ('a' ≤ c && c ≤ 'f')

/-- Python `s.split(sep)` for a single-character separator: keeps empty
pieces, always returns at least one piece. -/
def splitChar (sep : Char) : List Char → List (List Char)
  | [] => [[]]
  | c :: cs =>
      match splitChar sep cs with
      | [] => [[]]
      | g :: gs => if c = sep then [] :: g :: gs else (c :: g) :: gs

/-- Python `s.split()` (no argument): split on runs of whitespace, discarding
empty pieces.  `acc` is the (reversed) group being built. -/
def wsSplitAux : List Char → List Char → List (List Char)
  | [], acc => if acc.isEmpty then [] else [acc.reverse]
  | c :: cs, acc =>
      if pyIsSpace c then
        if acc.isEmpty then wsSplitAux cs [] else acc.reverse :: wsSplitAux cs []
      else wsSplitAux cs (c :: acc)

def wsSplit (cs : List Char) : List (List Char) := wsSplitAux cs []

/-- `String` view of `splitChar` (Python `str.split(":")` etc.). -/
def pySplit (s : String) (sep : Char) : List String :=
  (splitChar sep s.toList).map String.mk

/-- Python `str.isdigit` (ASCII reading): nonempty and all digits. -/
def pyIsDigitStr (s : String) : Bool :=
  !s.toList.isEmpty && s.toList.all Char.isDigit

/-- Numeric value of a digit string. -/
def digitsVal (cs : List Char) : Nat :=
  cs.foldl (fun a c => a * 10 + (c.toNat - 48)) 0

/-- Python `int(s)` restricted to the nonnegative decimal forms the grammars
feed it; anything else raises `ValueError`. -/
def pyInt (s : String) : Except PyErr Int :=
  if pyIsDigitStr s then .ok (Int.ofNat (digitsVal s.toList)) else .error .valueError

/-! ## Dates: `datetime.strptime(..., "%Y-%m-%dT%H:%M:%SZ").date()` -/

structure Date where
  y : Nat
  m : Nat
  d : Nat
deriving DecidableEq, Repr

/-- `datetime.date` comparison (lexicographic year, month, day). -/
def dateLt (a b : Date) : Bool :=
  a.y < b.y || (a.y = b.y && (a.m < b.m || (a.m = b.m && a.d < b.d)))

def isLeap (y : Nat) : Bool :=
  y % 4 = 0 && (y % 100 ≠ 0 || y % 400 = 0)

def daysInMonth (y m : Nat) : Nat :=
  if m = 2 then (if isLeap y then 29 else 28)
  else if m = 4 || m = 6 || m = 9 || m = 11 then 30
  else 31

/-- Take a maximal run of digits of length 1 or 2 (how strptime's `\d` field
patterns behave when the next format character is a non-digit literal). -/
def take2Digits : List Char → Option (Nat × List Char)
  | c₁ :: c₂ :: rest =>
      if c₁.isDigit then
        if c₂.isDigit then
          if rest.headD 'x' |>.isDigit then none
          else some (digitsVal [c₁, c₂], rest)
        else some (digitsVal [c₁], c₂ :: rest)
      else none
  | [c₁] => if c₁.isDigit then some (digitsVal [c₁], []) else none
  | [] => none

def reqLit (c : Char) : List Char → Option (List Char)
  | c' :: rest => if c' = c then some rest else none
  | [] => none

/-- `datetime.strptime(s, "%Y-%m-%dT%H:%M:%SZ").date()`.  `%Y` is exactly four
digits; `%m`, `%d`, `%H`, `%M`, `%S` are one or two digits in range; the
`datetime` constructor then validates the day against the month (and rejects
year 0).  Failure is Python's `ValueError`. -/
def parseStartTime (s : String) : Except PyErr Date :=
  match s.toList with
  | y₁ :: y₂ :: y₃ :: y₄ :: rest =>
      if (y₁.isDigit && y₂.isDigit && y₃.isDigit && y₄.isDigit : Bool) then
        let y := digitsVal [y₁, y₂, y₃, y₄]
        match reqLit '-' rest with
        | none => .error .valueError
        | some r₁ =>
        match take2Digits r₁ with
        | none => .error .valueError
        | some (mo, r₂) =>
        match reqLit '-' r₂ with
        | none => .error .valueError
        | some r₃ =>
        match take2Digits r₃ with
        | none => .error .valueError
        | some (da, r₄) =>
        match reqLit 'T' r₄ with
        | none => .error .valueError
        | some r₅ =>
        match take2Digits r₅ with
        | none => .error .valueError
        | some (hh, r₆) =>
        match reqLit ':' r₆ with
        | none => .error .valueError
        | some r₇ =>
        match take2Digits r₇ with
        | none => .error .valueError
        | some (mi, r₈) =>
        match reqLit ':' r₈ with
        | none => .error .valueError
        | some r₉ =>
        match take2Digits r₉ with
        | none => .error .valueError
        | some (ss, r₁₀) =>
        match reqLit 'Z' r₁₀ with
        | none => .error .valueError
        | some r₁₁ =>
          if (r₁₁.isEmpty && 1 ≤ y && 1 ≤ mo && mo ≤ 12 && 1 ≤ da &&
              da ≤ daysInMonth y mo && hh ≤ 23 && mi ≤ 59 && ss ≤ 59 : Bool) then
            .ok ⟨y, mo, da⟩
          else .error .valueError
      else .error .valueError
  | _ => .error .valueError

def pad2 (n : Nat) : String :=
  if n < 10 then "0" ++ toString n else toString n

def pad4 (n : Nat) : String :=
  if n < 10 then "000" ++ toString n
  else if n < 100 then "00" ++ toString n
  else if n < 1000 then "0" ++ toString n
  else toString n

/-- `date.strftime("%Y-%m-%d")`. -/
def formatDate (dt : Date) : String :=
  pad4 dt.y ++ "-" ++ pad2 dt.m ++ "-" ++ pad2 dt.d

/-! ## Regex character-class helpers -/

/-- Regex `[\w-]`. -/
def isWordDash (c : Char) : Bool := isWordChar c || c = '-'

/-- One-or-more of a class, as a whole-group check (`[..]+`). -/
def digits1 (g : List Char) : Bool := !g.isEmpty && g.all Char.isDigit

def grpWD (g : List Char) : Bool := !g.isEmpty && g.all isWordDash

/-- A group `X\d+` for a literal tag character `X` (PacBio `m…`, `c…`, …). -/
def tagDigits (t : Char) : List Char → Bool
  | c :: rest => c = t && digits1 rest
  | [] => false

/-- Regex `[ATCGN+]` (the Illumina index bases). -/
def isIdxBase (c : Char) : Bool :=
  c = 'A' || c = 'T' || c = 'C' || c = 'G' || c = 'N' || c = '+'

/-- Exactly `n` characters of a class (`[..]{n}`); returns the rest. -/
def takeExact : Nat → (Char → Bool) → List Char → Option (List Char)
  | 0, _, cs => some cs
  | _ + 1, _, [] => none
  | n + 1, p, c :: cs => if p c then takeExact n p cs else none

/-- A literal character sequence. -/
def reqStr : List Char → List Char → Option (List Char)
  | [], cs => some cs
  | l :: ls, c :: cs => if c = l then reqStr ls cs else none
  | _ :: _, [] => none

/-! ## Illumina (`extractors/seqtech.py` and `seqtech.py`)

Pattern (extractors/seqtech.py):
`^[\w-]+:\d+:[\w-]+:\d+:\d+:\d+:\d+\s[12]:[YN]:\d+:(\d+|[ATCGN+]+)$`;
the older `seqtech.py` has `[ATCGN+]+` alone as the index alternative.
None of the character classes may contain `':'` or whitespace, so the
decomposition into colon-separated groups around the single `\s` is forced
and the regex reduces to the structural checks below. -/

def illuminaG1 (g : List Char) : Bool :=
  match splitChar ':' g with
  | [a, b, c, d, e, f, h] =>
      grpWD a && digits1 b && grpWD c && digits1 d && digits1 e && digits1 f && digits1 h
  | _ => false

def illuminaG2Extr (g : List Char) : Bool :=
  match splitChar ':' g with
  | [a, b, c, d] =>
      (a = ['1'] || a = ['2']) && (b = ['Y'] || b = ['N']) && digits1 c &&
        (digits1 d || (!d.isEmpty && d.all isIdxBase))
  | _ => false

def illuminaG2Main (g : List Char) : Bool :=
  match splitChar ':' g with
  | [a, b, c, d] =>
      (a = ['1'] || a = ['2']) && (b = ['Y'] || b = ['N']) && digits1 c &&
        (!d.isEmpty && d.all isIdxBase)
  | _ => false

def illuminaAcceptsExtr (rn : String) : Bool :=
  match rn.toList.span (fun c => !pyIsSpace c) with
  | (g1, _ :: g2) => illuminaG1 g1 && illuminaG2Extr g2
  | (_, []) => false

def illuminaAcceptsMain (rn : String) : Bool :=
  match rn.toList.span (fun c => !pyIsSpace c) with
  | (g1, _ :: g2) => illuminaG1 g1 && illuminaG2Main g2
  | (_, []) => false

/-- The field extraction shared verbatim by both Illumina drafts:
`parts = read_name.split(":")`, then `instrument_id = parts[0]`,
`run_number = int(parts[1])`, `flow_cell_id = parts[2]`,
`flow_cell_lane = int(parts[3])`. -/
def illuminaFields (rn : String) : Except PyErr Dict :=
  match listIdx (pySplit rn ':') 0 with
  | .error e => .error e
  | .ok p0 =>
  match listIdx (pySplit rn ':') 1 with
  | .error e => .error e
  | .ok p1 =>
  match pyInt p1 with
  | .error e => .error e
  | .ok r1 =>
  match listIdx (pySplit rn ':') 2 with
  | .error e => .error e
  | .ok p2 =>
  match listIdx (pySplit rn ':') 3 with
  | .error e => .error e
  | .ok p3 =>
  match pyInt p3 with
  | .error e => .error e
  | .ok r3 =>
      .ok [("instrument_id", vstr p0), ("run_number", vint r1),
           ("flow_cell_id", vstr p2), ("flow_cell_lane", vint r3)]

/-- `Illumina.extract_metadata_from_read` (extractors/seqtech.py, lines 98-121). -/
def illuminaExtract (rn : String) : Except PyErr Dict :=
  if !illuminaAcceptsExtr rn then .ok [] else illuminaFields rn

/-- `Illumina.extract_metadata_from_read` (seqsleuth/seqtech.py, lines 41-56). -/
def illuminaExtractMain (rn : String) : Except PyErr Dict :=
  if !illuminaAcceptsMain rn then .ok [] else illuminaFields rn

/-! ## PacBio (`extractors/seqtech.py` and `seqtech.py`)

CLR pattern (both drafts): `^m\d+_\d+_\d+_c\d+_s\d+_p\d+/\d+/\d+_\d+$`.
`\d` cannot match `'/'` or `'_'`, so the slash/underscore segmentation is
forced: exactly three `/`-segments, the first splitting on `_` into exactly
six groups of the shapes below, the last into exactly two digit groups. -/

def clrSeg0 (g : List Char) : Bool :=
  match splitChar '_' g with
  | [a, b, c, d, e, f] =>
      tagDigits 'm' a && digits1 b && digits1 c &&
        tagDigits 'c' d && tagDigits 's' e && tagDigits 'p' f
  | _ => false

def clrSeg2 (g : List Char) : Bool :=
  match splitChar '_' g with
  | [x, y] => digits1 x && digits1 y
  | _ => false

def pacbio_pattern_clr (rn : String) : Bool :=
  match splitChar '/' rn.toList with
  | [a, b, c] => clrSeg0 a && digits1 b && clrSeg2 c
  | _ => false

/-- CCS pattern of the older `seqtech.py`: `^m\d+_\d+_\d+\d+/\d+/ccs`
(no `$`: `re.match` only anchors the start, so the third `/`-segment merely
has to *start* with `ccs`, and anything may follow).  `\d+\d+` is two or more
digits.  The first segment is forced into exactly three `_`-groups. -/
def ccsMainSeg0 (g : List Char) : Bool :=
  match splitChar '_' g with
  | [a, b, c] => tagDigits 'm' a && digits1 b && (c.all Char.isDigit && 2 ≤ c.length)
  | _ => false

def pacbio_pattern_ccs_main (rn : String) : Bool :=
  match splitChar '/' rn.toList with
  | a :: b :: c :: _ => ccsMainSeg0 a && digits1 b && c.take 3 = ['c', 'c', 's']
  | _ => false

/-- CCS pattern of `extractors/seqtech.py`: `m\d+(\w*|U_)\d+_\d+\d+/\d+/ccs`
(`re.match`, no `$`).  `U_` is a word string, so the alternation is just
`\w*`.  No piece of `\d+\w*\d+_\d+\d+` can contain `'/'`, hence it must
consume exactly the remainder `w` of the first `/`-segment after the leading
`m`.  Backtracking makes that an existential: `w` matches
`\d+\w*\d+_\d+\d+` iff `w` is all word characters and has an underscore at
some position `j` such that the prefix before it has length ≥ 2, starts and
ends with a digit (the outer `\d+`s), and the suffix after it is all digits
of length ≥ 2 (`\d+\d+`). -/
def ccsExtrWord (w : List Char) : Bool :=
  w.all isWordChar &&
    (List.range w.length).any (fun j =>
      decide (w.get? j = some '_') && decide (2 ≤ j) &&
      (match w.head? with | some c => c.isDigit | none => false) &&
      (match (w.take j).getLast? with | some c => c.isDigit | none => false) &&
      (w.drop (j + 1)).all Char.isDigit && decide (2 ≤ (w.drop (j + 1)).length))

def pacbio_pattern_ccs_extr (rn : String) : Bool :=
  match splitChar '/' rn.toList with
  | a :: b :: c :: _ =>
      (match a with | 'm' :: w => ccsExtrWord w | _ => false) &&
        digits1 b && c.take 3 = ['c', 'c', 's']
  | _ => false

def pacbioAcceptsExtr (rn : String) : Bool :=
  pacbio_pattern_clr rn || pacbio_pattern_ccs_extr rn

def pacbioAcceptsMain (rn : String) : Bool :=
  pacbio_pattern_clr rn || pacbio_pattern_ccs_main rn

/-- `PacBio.extract_metadata_from_read` (extractors/seqtech.py, lines 162-190):
`parts = read_name.split("/")`; `movie_name = parts[0]` (the commented-out
`.split("_")[0]` is *not* applied in this draft); `read_type` is `"CCS"` iff
`parts[2] == "ccs"`, else `"CLR"`. -/
def pacbioExtrExtract (rn : String) : Except PyErr Dict :=
  if !pacbioAcceptsExtr rn then .ok []
  else
    match listIdx (splitChar '/' rn.toList) 0 with
    | .error e => .error e
    | .ok p0 =>
    match listIdx (splitChar '/' rn.toList) 2 with
    | .error e => .error e
    | .ok p2 =>
        .ok [("movie_name", vstr (String.mk p0)),
             ("read_type", vstr (if String.mk p2 = "ccs" then "CCS" else "CLR"))]

/-- `PacBio.extract_metadata_from_read` (seqsleuth/seqtech.py, lines 81-101):
identical except `movie_name = parts[0].split("_")[0]` — only the part of the
first segment before its first underscore. -/
def pacbioMainExtract (rn : String) : Except PyErr Dict :=
  if !pacbioAcceptsMain rn then .ok []
  else
    match listIdx (splitChar '/' rn.toList) 0 with
    | .error e => .error e
    | .ok p0 =>
    match listIdx (splitChar '/' rn.toList) 2 with
    | .error e => .error e
    | .ok p2 =>
        .ok [("movie_name", vstr (String.mk ((splitChar '_' p0).headD []))),
             ("read_type", vstr (if String.mk p2 = "ccs" then "CCS" else "CLR"))]

/-! ## Oxford Nanopore (`extractors/seqtech.py`, lines 197-277)

Standard pattern:
`^[0-9a-f]{8}-([0-9a-f]{4}-){3}[0-9a-f]{12} runid=[0-9a-f]{40}.*$`.
Non-standard pattern:
`^[0-9a-f]{8}-([0-9a-f]{4}-){3}[0-9a-f]{12}.*[a-zA-Z0-9_/:.]*$` — the final
class is starred, so it is absorbed by `.*`; the pattern is just a UUID-shaped
prefix followed by newline-free text.  The older `seqtech.py` (lines 108-152)
has only the standard pattern and no non-standard branch; on standard-form
reads the two drafts behave identically. -/

/-- Consume the `8-4-4-4-12` lowercase-hex UUID shape; return the rest. -/
def uuidShape (cs : List Char) : Option (List Char) := do
  let r ← takeExact 8 isHexLower cs
  let r ← reqLit '-' r
  let r ← takeExact 4 isHexLower r
  let r ← reqLit '-' r
  let r ← takeExact 4 isHexLower r
  let r ← reqLit '-' r
  let r ← takeExact 4 isHexLower r
  let r ← reqLit '-' r
  takeExact 12 isHexLower r

def nanopore_pattern (rn : String) : Bool :=
  match uuidShape rn.toList with
  | none => false
  | some r =>
      match reqLit ' ' r with
      | none => false
      | some r₁ =>
          match reqStr ['r', 'u', 'n', 'i', 'd', '='] r₁ with
          | none => false
          | some r₂ =>
              match takeExact 40 isHexLower r₂ with
              | none => false
              | some rest => rest.all (fun c => c ≠ '\n')

def nanopore_pattern_non_std (rn : String) : Bool :=
  match uuidShape rn.toList with
  | none => false
  | some rest => rest.all (fun c => c ≠ '\n')

/-- The per-file mutable state of one `OxfordNanopore` instance: the
`earliest_start_date` field and the single shared `self.metadata` dict. -/
structure OntState where
  earliest_start_date : Option Date
  metadata : Dict
deriving DecidableEq, Repr

def ontInit : OntState := ⟨none, []⟩

/-- The `for pair in parts[1:]` loop: `key, value = pair.split("=")` (a
`ValueError` unless the split has exactly two pieces), skipping `read` and
`ch`, writing every other pair into `self.metadata`. -/
def processPairs : Dict → List String → Except PyErr Dict
  | md, [] => .ok md
  | md, p :: rest =>
      match splitChar '=' p.toList with
      | [k, v] =>
          let key := String.mk k
          processPairs
            (if key = "read" || key = "ch" then md
             else dictInsert md key (vstr (String.mk v))) rest
      | _ => .error .valueError

/-- What one call to `extract_metadata_from_read` hands back: either a fresh
dict object (the empty dict on a convention failure, or a newly built dict
for the stateless grammars), or *the grammar instance's own dict*
(`return self.metadata` — Nanopore and Dovetail), i.e. an alias that keeps
changing as later reads are processed. -/
inductive Entry where
  | fresh (d : Dict)
  | shared
deriving DecidableEq, Repr

/-- `self.metadata.get("start_time", "")` as the string `strptime` receives
(the values in `self.metadata` are always strings on this path). -/
def getStartTimeStr (md : Dict) : Except PyErr String :=
  match dictGetD md "start_time" (vstr "") with
  | .scalar (.str s) => .ok s
  | _ => .error .typeError

/-- The running-minimum update: keep the previous `earliest_start_date` when
it is no later, else take the newly parsed date (also taken when no previous
value exists). -/
def ontNewEarliest (st : OntState) (dt : Date) : Date :=
  match st.earliest_start_date with
  | none => dt
  | some e => if dateLt dt e then dt else e

/-- `OxfordNanopore.extract_metadata_from_read` (extractors/seqtech.py,
lines 236-274).  On a standard-form read: fold the `key=value` pairs into
`self.metadata`, parse `self.metadata.get("start_time", "")`, lower the
running minimum if the date is earlier, write it back under
`earliest_start_date`, pop `start_time`, and return `self.metadata` (the
shared dict).  On a merely non-standard-matching read: record the read name
and a note, and return the shared dict.  On a rejected read: return a fresh
`{}`. -/
def ontExtract (st : OntState) (rn : String) : Except PyErr (OntState × Entry) :=
  if !(nanopore_pattern rn || nanopore_pattern_non_std rn) then .ok (st, .fresh [])
  else if nanopore_pattern rn then
    match processPairs st.metadata ((wsSplit rn.toList).map String.mk).tail with
    | .error e => .error e
    | .ok md =>
    match getStartTimeStr md with
    | .error e => .error e
    | .ok stime =>
    match parseStartTime stime with
    | .error e => .error e
    | .ok dt =>
        .ok (⟨some (ontNewEarliest st dt),
              dictPop (dictInsert md "earliest_start_date"
                (vstr (formatDate (ontNewEarliest st dt)))) "start_time"⟩, .shared)
  else
    let md := dictInsert (dictInsert st.metadata "read_name" (vstr rn))
                "note" (vstr "non-standard read name")
    .ok (⟨st.earliest_start_date, md⟩, .shared)

/-! ## 10X Genomics Linked-Reads (`extractors/seqtech.py`, lines 281-344)

Pattern: `^\S+:\S+:\S+:\S+:\S+:.*$`.  A `\S+` may itself contain colons, so
acceptance means: some colon position `i` closes the fifth group — everything
before `i` is whitespace-free and decomposes as `\S+(:\S+){4}`, and
everything after `i` is newline-free. -/

/-- Can `cs` be written as `\S+(:\S+){k}`?  (Whitespace-freeness is checked
by the caller; pieces are merely nonempty and may contain colons.) -/
def canSplitCol : Nat → List Char → Bool
  | 0, cs => !cs.isEmpty
  | k + 1, cs =>
      (List.range cs.length).any (fun i =>
        decide (1 ≤ i) && decide (cs.get? i = some ':') && canSplitCol k (cs.drop (i + 1)))

def tenx_pattern (rn : String) : Bool :=
  (List.range rn.toList.length).any (fun i =>
    decide (rn.toList.get? i = some ':') &&
    (rn.toList.take i).all (fun c => !pyIsSpace c) &&
    canSplitCol 4 (rn.toList.take i) &&
    (rn.toList.drop (i + 1)).all (fun c => c ≠ '\n'))

/-- `TenXGenomicsLinkedReads.extract_metadata_from_read` (lines 310-341):
builds a fresh dict from `parts[0]`, `parts[1]`, `parts[3]` of the colon
split and appends it to the instance's `metadata_values` list. -/
def tenxExtract (vals : List Dict) (rn : String) :
    Except PyErr (List Dict × Entry) :=
  if !tenx_pattern rn then .ok (vals, .fresh [])
  else
    match listIdx (pySplit rn ':') 0 with
    | .error e => .error e
    | .ok p0 =>
    match listIdx (pySplit rn ':') 1 with
    | .error e => .error e
    | .ok p1 =>
    match listIdx (pySplit rn ':') 3 with
    | .error e => .error e
    | .ok p3 =>
        let md : Dict := [("sample", vstr p0), ("library", vstr p1), ("set", vstr p3)]
        .ok (vals ++ [md], .fresh md)

/-! ## Dovetail (`extractors/seqtech.py`, lines 347-410)

Pattern: `^(\S+:\S+:\S+:\S+:\S+:\S+:\S+)\s(\d:\S:\d:\S+)$`.  Neither group
may contain whitespace, so the `\s` is the unique whitespace character; the
first group decomposes as `\S+(:\S+){6}`, the second is rigid. -/

def dovetailG2 (g : List Char) : Bool :=
  match g with
  | d₁ :: ':' :: c₁ :: ':' :: d₂ :: ':' :: rest =>
      d₁.isDigit && !pyIsSpace c₁ && d₂.isDigit &&
        !rest.isEmpty && rest.all (fun c => !pyIsSpace c)
  | _ => false

def dovetail_pattern (rn : String) : Bool :=
  match rn.toList.span (fun c => !pyIsSpace c) with
  | (g1, _ :: g2) => canSplitCol 6 g1 && dovetailG2 g2
  | (_, []) => false

/-- The `for i, field in enumerate(library_info[:5])` loop writing
`Library_Field_<i+1>` into the shared `self.metadata`. -/
def dovetailFold : Dict → List (List Char) → Nat → Dict
  | md, [], _ => md
  | md, f :: rest, i =>
      dovetailFold (dictInsert md ("Library_Field_" ++ toString i) (vstr (String.mk f))) rest (i + 1)

/-- `DovetailSeqTech.extract_metadata_from_read` (lines 380-407):
`parts = read_name.split(" ")`, `library_info = parts[0].split(":")`, write
the first five fields into `self.metadata`, return `self.metadata`. -/
def dovetailExtract (md : Dict) (rn : String) : Except PyErr (Dict × Entry) :=
  if !dovetail_pattern rn then .ok (md, .fresh [])
  else
    let library_info := splitChar ':' ((splitChar ' ' rn.toList).headD [])
    .ok (dovetailFold md (library_info.take 5) 1, .shared)

/-! ## Other / Unknown, instances, the sequential driver -/

/-- `OtherSeqTech.extract_metadata_from_read` (lines 427-429): accepts
everything, echoes the sentinel and the raw read name in a fresh dict. -/
def otherExtract (rn : String) : Dict :=
  [("tech", vstr "unimplemented parser"), ("read_names", vstr rn)]

/-- One created `SeqTech` instance together with its per-file mutable state
(`OxfordNanopore.earliest_start_date`/`metadata`,
`TenXGenomicsLinkedReads.metadata_values`, `DovetailSeqTech.metadata`). -/
inductive TechInstance where
  | illumina
  | pacbio
  | ont (st : OntState)
  | tenx (metadata_values : List Dict)
  | dovetail (metadata : Dict)
  | other
  | unknown
deriving DecidableEq, Repr

/-- `check_read_name_convention` per class.  `OtherSeqTech` always accepts.
`UnknownSeqTech` does not override the base method (calling it would raise
`NotImplementedError`); its `extract` below errors before any check, so the
value here is never consulted — it is set to `false`. -/
def check_read_name_convention : TechInstance → String → Bool
  | .illumina, rn => illuminaAcceptsExtr rn
  | .pacbio, rn => pacbioAcceptsExtr rn
  | .ont _, rn => nanopore_pattern rn || nanopore_pattern_non_std rn
  | .tenx _, rn => tenx_pattern rn
  | .dovetail _, rn => dovetail_pattern rn
  | .other, _ => true
  | .unknown, _ => false

/-- `tech_instance.extract_metadata_from_read(read_name)`, with the
instance's state threaded explicitly.  `UnknownSeqTech` inherits the base
method, which raises `NotImplementedError`. -/
def extract_metadata_from_read :
    TechInstance → String → Except PyErr (TechInstance × Entry)
  | .illumina, rn => (illuminaExtract rn).map (fun d => (.illumina, .fresh d))
  | .pacbio, rn => (pacbioExtrExtract rn).map (fun d => (.pacbio, .fresh d))
  | .ont st, rn => (ontExtract st rn).map (fun p => (.ont p.1, p.2))
  | .tenx vals, rn => (tenxExtract vals rn).map (fun p => (.tenx p.1, p.2))
  | .dovetail md, rn => (dovetailExtract md rn).map (fun p => (.dovetail p.1, p.2))
  | .other, rn => .ok (.other, .fresh (otherExtract rn))
  | .unknown, _ => .error .notImplementedError

/-- The dict an `Entry` denotes *when it is finally read* (at aggregation
time), given the instance state at that moment: a `shared` entry aliases the
instance's dict, so its contents are the instance's *current* contents. -/
def observe : TechInstance → Entry → Dict
  | _, .fresh d => d
  | .ont st, .shared => st.metadata
  | .dovetail md, .shared => md
  | _, .shared => []

/-- `ReadNameMetadataExtractor.extract_metadata_sequentially`
(extractors/readnames.py, lines 50-57): a plain loop appending
`extract_metadata_from_read(read_name)` for every read name, with **no**
per-read exception handling — an exception propagates and aborts the loop. -/
def extract_metadata_sequentially (g : TechInstance) :
    List String → Except PyErr (TechInstance × List Entry)
  | [] => .ok (g, [])
  | rn :: rest =>
      match extract_metadata_from_read g rn with
      | .error e => .error e
      | .ok p =>
          match extract_metadata_sequentially p.1 rest with
          | .error e => .error e
          | .ok q => .ok (q.1, p.2 :: q.2)

/-! ## Aggregation (`extractors/readnames.py` lines 19-48, and the identical
loop in `extract_metadata.py` lines 20-49)

`metadata_dict` maps each key to the Python `set` of values seen for it,
modelled as the list of distinct values in first-insertion order (a
deterministic refinement: CPython set iteration order is unspecified, and the
spec documents the list case as unordered).  `set.add` of an unhashable value
(a list) raises `TypeError`. -/

/-- `set.add` for a value already known hashable: no-op when the element is
present, else it joins the set (modelled at the end of the insertion order). -/
def setAddP (s : List PyScalar) (x : PyScalar) : List PyScalar :=
  if x ∈ s then s else s ++ [x]

def setAdd (s : List PyScalar) (v : PyValue) : Except PyErr (List PyScalar) :=
  match v with
  | .scalar x => .ok (setAddP s x)
  | .list _ => .error .typeError

/-- `if key not in metadata_dict: metadata_dict[key] = set()` followed by
`metadata_dict[key].add(value)`. -/
def addPair : List (String × List PyScalar) → String → PyValue →
    Except PyErr (List (String × List PyScalar))
  | [], k, v => (setAdd [] v).map (fun s => [(k, s)])
  | (k', s) :: rest, k, v =>
      if k' = k then (setAdd s v).map (fun s' => (k', s') :: rest)
      else (addPair rest k v).map (fun r => (k', s) :: r)

/-- The inner `for key, value in read_metadata.items()` loop. -/
def addPairs : List (String × List PyScalar) → List (String × PyValue) →
    Except PyErr (List (String × List PyScalar))
  | acc, [] => .ok acc
  | acc, (k, v) :: rest =>
      match addPair acc k v with
      | .error e => .error e
      | .ok a => addPairs a rest

/-- `if read_metadata:` — empty per-read dicts are skipped outright. -/
def addRead (acc : List (String × List PyScalar)) (m : Dict) :
    Except PyErr (List (String × List PyScalar)) :=
  if m.isEmpty then .ok acc else addPairs acc m

/-- The outer `for read_metadata in metadata_list` loop. -/
def accumulate : List (String × List PyScalar) → List Dict →
    Except PyErr (List (String × List PyScalar))
  | acc, [] => .ok acc
  | acc, m :: rest =>
      match addRead acc m with
      | .error e => .error e
      | .ok a => accumulate a rest

/-- The final pass: a singleton set becomes its sole element
(`next(iter(value_set))`), anything else becomes `list(value_set)`. -/
def finalizeSets (acc : List (String × List PyScalar)) : Dict :=
  acc.map (fun kv => (kv.1,
    match kv.2 with
    | [v] => PyValue.scalar v
    | vs => PyValue.list vs))

/-- The whole aggregation of a list of per-read dicts, before the enclosing
`try`/`except`. -/
def aggregate (ms : List Dict) : Except PyErr Dict :=
  (accumulate [] ms).map finalizeSets

/-- The aggregation as the enclosing `try`/`except Exception: return {}`
delivers it. -/
def aggregateCaught (ms : List Dict) : Dict :=
  match aggregate ms with
  | .ok d => d
  | .error _ => []

/-- `ReadNameMetadataExtractor.extract_metadata` (extractors/readnames.py,
lines 19-48): run the sequential driver, aggregate what the collected list
holds *at that point* (shared entries read the final instance state), and
catch any exception into `{}`.  (The `tech_instance is None` guard never
fires — `SeqTechFactory.create` always returns an instance — so it is not
modelled.) -/
def extract_metadata (g : TechInstance) (read_names : List String) : Dict :=
  match extract_metadata_sequentially g read_names with
  | .error _ => []
  | .ok p =>
      match aggregate (p.2.map (observe p.1)) with
      | .error _ => []
      | .ok d => d

/-! ## The `main.py` pipeline -/

/-- `SeqTechFactory.extract_metadata_in_parallel` (seqsleuth/seqtech.py,
lines 299-307) references `ProcessPoolExecutor`, but `seqtech.py` never
imports `concurrent.futures`, so the call raises `NameError` as soon as it is
entered. -/
def extract_metadata_in_parallel : Except PyErr (List Dict) :=
  .error .nameError

/-- `MetadataExtractor.extract_metadata` (extract_metadata.py, lines 20-49):
delegates to `extract_metadata_in_parallel` inside `try`/`except Exception:
return {}`; with the `NameError` above this always yields `{}`. -/
def metadataExtractorExtract (_read_names : List String) : Dict :=
  match extract_metadata_in_parallel with
  | .error _ => []
  | .ok metadata_list =>
      match aggregate metadata_list with
      | .error _ => []
      | .ok d => d

def warning_unknown : Dict := [("Warning", vstr "Unknown technology.")]

/-- The metadata branch of `process_file` (main.py, lines 74-83): a file
classified `"Unknown"` short-circuits to the warning dict and never reaches
the extractor; anything else goes through `MetadataExtractor`. -/
def process_file_metadata (predicted_tech : String) (read_names : List String) : Dict :=
  if predicted_tech = "Unknown" then warning_unknown
  else metadataExtractorExtract read_names

/-! ## Read-name fallback classifier (`predict_tech_from_fastq.py`,
lines 48-57) -/

/-- The body of one loop iteration of
`TechnologyPredictor.predict_technology_based_on_read_names`:
`read_name.split(":")[1].isdigit()` (an `IndexError` when the split has
fewer than two pieces), then the `startswith` ladder; `none` means the loop
falls through to the next record. -/
def classifyReadName (rn : String) : Except PyErr (Option String) :=
  match listIdx (pySplit rn ':') 1 with
  | .error e => .error e
  | .ok p1 =>
      if pyIsDigitStr p1 then .ok (some "Illumina")
      else if rn.startsWith "m" || rn.startsWith "c" then .ok (some "PacBio")
      else if rn.startsWith "read" then .ok (some "OxfordNanopore")
      else .ok none

/-- The whole loop: first classified read wins; an empty or exhausted record
stream yields `"Unknown"`. -/
def predict_technology_based_on_read_names : List String → Except PyErr String
  | [] => .ok "Unknown"
  | rn :: rest =>
      match classifyReadName rn with
      | .error e => .error e
      | .ok (some t) => .ok t
      | .ok none => predict_technology_based_on_read_names rest

/-! ## Filename classifier (`predict_tech_from_fastq.py`, lines 77-82)

The `try` body of `FastqFile.predict_technology_based_on_filename` is elided
in the source (it is the literal `...`); only the `except Exception:` arm —
log and `return "Unknown"` — survives, and the module-level constants the
tests import (`TECH_IDENTIFIERS`, …) are absent.  The matching body is
therefore modelled from the spec. -/

/-- Modelled from the spec: the per-technology filename identifier table of
§4.1 (the body that uses it is missing from `predict_tech_from_fastq.py`).
The spec enumerates the Illumina, PacBio and OxfordNanopore identifier sets
and names the remaining technologies without listing their identifiers;
their lowercase names stand in for the unlisted sets. -/
def TECH_IDENTIFIERS : List (String × List String) :=
  [("Illumina", ["illumina", "ilum", "nextseq", "hiseq", "miseq", "novaseq", "ill"]),
   ("PacBio", ["pacbio", "pb", "sequel", "smrt"]),
   ("OxfordNanopore", ["nanopore", "ont", "minion", "promethion"]),
   ("BGI", ["bgi"]),
   ("CompleteGenomics", ["completegenomics"]),
   ("Dovetail", ["dovetail"]),
   ("StrandSeq", ["strandseq"]),
   ("10XGenomics", ["10x"]),
   ("Moleculo", ["moleculo"]),
   ("IonTorrent", ["iontorrent"]),
   ("Assembly", ["assembly"])]

/-- Python `str.lower()` (ASCII reading), written out so that it reduces in
the kernel. -/
def pyLowerChar (c : Char) : Char :=
  if 'A' ≤ c && c ≤ 'Z' then Char.ofNat (c.toNat + 32) else c

def pyLower (s : String) : String :=
  String.mk (s.toList.map pyLowerChar)

/-- Python `needle in hay` for strings. -/
def isSubstr (needle hay : String) : Bool :=
  (List.range (hay.toList.length + 1)).any
    (fun i => needle.toList.isPrefixOf (hay.toList.drop i))

/-- Modelled from the spec: lower-case the filename; the first technology in
table order with a matching identifier substring wins; no match at all means
`"Unknown"`. -/
def techFromIdentifiers (filename : String) :
    List (String × List String) → String
  | [] => "Unknown"
  | (tech, ids) :: rest =>
      if ids.any (fun ident => isSubstr ident (pyLower filename)) then tech
      else techFromIdentifiers filename rest

/-- Modelled from the spec: the elided `try` body as a fallible computation
(the spec's failure semantics assume it may raise). -/
def predictTechBody (filename : String) : Except PyErr String :=
  .ok (techFromIdentifiers filename TECH_IDENTIFIERS)

/-- The surviving `except Exception:` arm of
`FastqFile.predict_technology_based_on_filename`: any exception from the
matching body degrades to `"Unknown"`. -/
def catchToUnknown (r : Except PyErr String) : String :=
  match r with
  | .ok t => t
  | .error _ => "Unknown"

def predict_technology_based_on_filename (filename : String) : String :=
  catchToUnknown (predictTechBody filename)

/-- `True` when no identifier of any technology occurs in the lower-cased
filename. -/
def noIdentifierMatches (filename : String) : Bool :=
  TECH_IDENTIFIERS.all (fun p => p.2.all (fun ident => !isSubstr ident (pyLower filename)))

/-! ## Concrete inputs for the scenario claims -/

def scenarioA : String := "INSTR1:7:FC001:2:1101:1000:2000 1:N:0:ATCG"

def scenarioB : String := "m64017_191118_150849/43322019/ccs"

def ontUUID : String := "aaaaaaaa-aaaa-aaaa-aaaa-aaaaaaaaaaaa"

def ontRunid : String := "aaaaaaaaaaaaaaaaaaaaaaaaaaaaaaaaaaaaaaaa"

def ontRead1 : String :=
  ontUUID ++ " runid=" ++ ontRunid ++ " read=10 ch=2 start_time=2021-01-03T10:00:00Z"

def ontRead2 : String :=
  ontUUID ++ " runid=" ++ ontRunid ++ " read=11 ch=3 start_time=2021-01-01T08:30:00Z"

def ontRead3 : String :=
  ontUUID ++ " runid=" ++ ontRunid ++ " read=12 ch=4 start_time=2021-01-02T12:00:00Z"

/-- A read name matching the standard Nanopore pattern but carrying no
`start_time` pair: `strptime("")` then raises `ValueError` inside
`extract_metadata_from_read`. -/
def ontBadRead : String := ontUUID ++ " runid=" ++ ontRunid

/-- The Nanopore instance state after `ontRead1`. -/
def ontSt1 : OntState :=
  ⟨some ⟨2021, 1, 3⟩,
   [("runid", vstr ontRunid), ("earliest_start_date", vstr "2021-01-03")]⟩

/-- The Nanopore instance state after `ontRead2` (and also after `ontRead3`,
whose later date does not lower the minimum). -/
def ontSt2 : OntState :=
  ⟨some ⟨2021, 1, 1⟩,
   [("runid", vstr ontRunid), ("earliest_start_date", vstr "2021-01-01")]⟩

/-! ## Claim theorems -/

/-- C7: the Illumina read name `"INSTR1:7:FC001:2:1101:1000:2000 1:N:0:ATCG"`
is accepted (by the pattern of either draft) and extraction yields exactly
`{instrument_id: "INSTR1", run_number: 7 (int), flow_cell_id: "FC001",
flow_cell_lane: 2 (int)}`. -/
theorem C7_illumina_scenario_A :
    illuminaAcceptsExtr scenarioA = true ∧
    illuminaAcceptsMain scenarioA = true ∧
    illuminaExtract scenarioA =
      .ok [("instrument_id", vstr "INSTR1"), ("run_number", vint 7),
           ("flow_cell_id", vstr "FC001"), ("flow_cell_lane", vint 2)] ∧
    illuminaExtractMain scenarioA =
      .ok [("instrument_id", vstr "INSTR1"), ("run_number", vint 7),
           ("flow_cell_id", vstr "FC001"), ("flow_cell_lane", vint 2)] := by
  decide

/-- C3: three Oxford Nanopore reads with `start_time` dates 2021-01-03,
2021-01-01, 2021-01-02 processed in that order.  Each call returns the shared
dict, whose contents at return time report `earliest_start_date` 2021-01-03,
2021-01-01, 2021-01-01 respectively; aggregating the three collected entries
(which all alias the shared dict, whose final contents carry the minimum)
yields the single scalar `"2021-01-01"`. -/
theorem C3_scenario_D :
    ontExtract ontInit ontRead1 = .ok (ontSt1, .shared) ∧
    lookupA ontSt1.metadata "earliest_start_date" = some (vstr "2021-01-03") ∧
    ontExtract ontSt1 ontRead2 = .ok (ontSt2, .shared) ∧
    lookupA ontSt2.metadata "earliest_start_date" = some (vstr "2021-01-01") ∧
    ontExtract ontSt2 ontRead3 = .ok (ontSt2, .shared) ∧
    extract_metadata (.ont ontInit) [ontRead1, ontRead2, ontRead3] =
      [("runid", vstr ontRunid), ("earliest_start_date", vstr "2021-01-01")] := by
  decide

/-- C6 counterexample: a file classified `"Unknown"` yields the warning dict
`{"Warning": "Unknown technology."}` from `process_file`, not the
Other/Unknown sentinel mapping `{tech: "unimplemented parser", …}` the claim
describes. -/
theorem C6_counterexample :
    process_file_metadata "Unknown" ["garbled read"] =
      [("Warning", vstr "Unknown technology.")] ∧
    lookupA (process_file_metadata "Unknown" ["garbled read"]) "tech" ≠
      some (vstr "unimplemented parser") := by
  decide

/-- C6 amended: for every file whose technology is classified `Unknown`,
`process_file` short-circuits before any extractor runs and the resulting
file metadata is exactly `{"Warning": "Unknown technology."}`. -/
theorem C6_amended_unknown_warning (read_names : List String) :
    process_file_metadata "Unknown" read_names =
      [("Warning", vstr "Unknown technology.")] := by
  rfl

/-! ### Facts about `splitChar` needed for the classifier claims -/

theorem splitChar_ne_nil (sep : Char) (cs : List Char) : splitChar sep cs ≠ [] := by
  cases cs with
  | nil => simp [splitChar]
  | cons c cs =>
      cases h : splitChar sep cs with
      | nil => simp [splitChar, h]
      | cons g gs =>
          simp only [splitChar, h]
          split <;> simp

theorem two_le_splitChar_length (sep : Char) (cs : List Char) :
    2 ≤ (splitChar sep cs).length ↔ sep ∈ cs := by
  induction cs with
  | nil => simp [splitChar]
  | cons c cs ih =>
      cases h : splitChar sep cs with
      | nil => exact absurd h (splitChar_ne_nil sep cs)
      | cons g gs =>
          rw [h] at ih
          by_cases hc : c = sep
          · subst hc
            simp only [splitChar, h, if_pos rfl]
            simp
          · simp only [splitChar, h, if_neg hc]
            simp only [List.length_cons] at ih ⊢
            rw [List.mem_cons]
            constructor
            · intro hl
              exact Or.inr (ih.mp hl)
            · intro hm
              rcases hm with hm | hm
              · exact absurd hm.symm hc
              · exact ih.mpr hm

/-- C10: for every read name with no colon, the read-name fallback
classifier's per-record step `read_name.split(":")[1].isdigit()` raises an
`IndexError` instead of producing a label; consequently a technology label
(in particular the PacBio and OxfordNanopore branches) can only be produced
for read names containing at least one colon. -/
theorem C10_no_colon_raises :
    (∀ rn : String, ':' ∉ rn.toList → classifyReadName rn = .error .indexError) ∧
    (∀ (rn : String) (r : Option String), classifyReadName rn = .ok r →
        ':' ∈ rn.toList) := by
  constructor
  · intro rn h
    have h2 : ¬ 2 ≤ (splitChar ':' rn.toList).length := by
      rw [two_le_splitChar_length]
      exact h
    have h3 : (pySplit rn ':').get? 1 = none := by
      rw [List.get?_eq_none]
      simp only [pySplit, List.length_map]
      omega
    have h4 : listIdx (pySplit rn ':') 1 = (.error .indexError : Except PyErr String) := by
      unfold listIdx
      rw [h3]
    unfold classifyReadName
    rw [h4]
  · intro rn r hok
    by_contra hmem
    have h2 : ¬ 2 ≤ (splitChar ':' rn.toList).length := by
      rw [two_le_splitChar_length]
      exact hmem
    have h3 : (pySplit rn ':').get? 1 = none := by
      rw [List.get?_eq_none]
      simp only [pySplit, List.length_map]
      omega
    have h4 : listIdx (pySplit rn ':') 1 = (.error .indexError : Except PyErr String) := by
      unfold listIdx
      rw [h3]
    unfold classifyReadName at hok
    rw [h4] at hok
    exact Except.noConfusion hok

/-- C10 witness: the colon-free PacBio-style read name of Scenario B makes
the per-record step raise `IndexError`. -/
theorem C10_witness :
    classifyReadName "m64017_191118_150849/43322019/ccs" = .error .indexError :=
  C10_no_colon_raises.1 "m64017_191118_150849/43322019/ccs" (by decide)

theorem techFromIdentifiers_all_fail (f : String) :
    ∀ l : List (String × List String),
      l.all (fun p => p.2.all (fun ident => !isSubstr ident (pyLower f))) = true →
      techFromIdentifiers f l = "Unknown" := by
  intro l
  induction l with
  | nil => intro _; rfl
  | cons p rest ih =>
      intro hall
      obtain ⟨tech, ids⟩ := p
      simp only [List.all_cons, Bool.and_eq_true] at hall
      have hany : ids.any (fun ident => isSubstr ident (pyLower f)) = false := by
        rw [List.any_eq_false]
        intro x hx
        have hx2 := List.all_eq_true.mp hall.1 x hx
        simpa using hx2
      simp only [techFromIdentifiers, hany]
      simp only [Bool.false_eq_true, if_false]
      exact ih hall.2

/-- C5: the filename classifier returns `"Unknown"` whenever no technology
identifier is a substring of the lower-cased filename, and the
`except Exception:` arm turns any exception from the matching body into
`"Unknown"` instead of propagating it.  (The matching body itself is
modelled from the spec — its code is elided in
`predict_tech_from_fastq.py`.) -/
theorem C5_filename_classifier :
    (∀ filename : String, noIdentifierMatches filename = true →
        predict_technology_based_on_filename filename = "Unknown") ∧
    (∀ e : PyErr, catchToUnknown (.error e) = "Unknown") := by
  constructor
  · intro f h
    exact techFromIdentifiers_all_fail f TECH_IDENTIFIERS h
  · intro e
    rfl

/-- C5 witness: a filename matching no identifier classifies as `"Unknown"`,
and a raising body is caught to `"Unknown"`. -/
theorem C5_witness :
    predict_technology_based_on_filename "zzz.fq" = "Unknown" ∧
    catchToUnknown (.error .valueError) = "Unknown" :=
  ⟨C5_filename_classifier.1 "zzz.fq" (by decide),
   C5_filename_classifier.2 .valueError⟩

/-! ### The pure view of the aggregation on hashable inputs (for C1/C8)

The reference side (following the spec's words): `observedValues ms k` is the
list of distinct values observed for key `k` across the per-read dicts, in
first-seen order; aggregation must map every observed key to its sole value,
or to the list of its distinct values. -/

/-- The scalar-valued pairs of a per-read dict (on hashable inputs this is
the whole dict). -/
def scalars (m : Dict) : List (String × PyScalar) :=
  m.filterMap (fun kv =>
    match kv with
    | (k, .scalar x) => some (k, x)
    | (_, .list _) => none)

/-- The values recorded under key `k`, in order. -/
def valsAt (ps : List (String × PyScalar)) (k : String) : List PyScalar :=
  ps.filterMap (fun kv => if kv.1 = k then some kv.2 else none)

/-- Fold a batch of values into a duplicate-free list (first-seen order). -/
def dedupInto (s : List PyScalar) (xs : List PyScalar) : List PyScalar :=
  xs.foldl setAddP s

/-- The distinct values observed for `k` across the whole input, in
first-seen order. -/
def observedValues (ms : List Dict) (k : String) : List PyScalar :=
  ms.foldl (fun s m => dedupInto s (valsAt (scalars m) k)) []

/-- The pure counterpart of `addPair` for a scalar value. -/
def addPairP : List (String × List PyScalar) → String → PyScalar →
    List (String × List PyScalar)
  | [], k, x => [(k, setAddP [] x)]
  | (k', s) :: rest, k, x =>
      if k' = k then (k', setAddP s x) :: rest
      else (k', s) :: addPairP rest k x

def addPairsP : List (String × List PyScalar) → List (String × PyScalar) →
    List (String × List PyScalar)
  | acc, [] => acc
  | acc, (k, x) :: rest => addPairsP (addPairP acc k x) rest

def accumulateP : List (String × List PyScalar) → List Dict →
    List (String × List PyScalar)
  | acc, [] => acc
  | acc, m :: rest => accumulateP (addPairsP acc (scalars m)) rest

/-- The per-key accumulator as an `Option`: `none` = key never seen. -/
def foldSetOpt (o : Option (List PyScalar)) (xs : List PyScalar) :
    Option (List PyScalar) :=
  xs.foldl (fun o x => some (setAddP (o.getD []) x)) o

def collectOpt (o : Option (List PyScalar)) (ms : List Dict) (k : String) :
    Option (List PyScalar) :=
  ms.foldl (fun o m => foldSetOpt o (valsAt (scalars m) k)) o

theorem mem_setAddP (s : List PyScalar) (x v : PyScalar) :
    v ∈ setAddP s x ↔ v ∈ s ∨ v = x := by
  unfold setAddP
  split
  · rename_i hmem
    constructor
    · exact Or.inl
    · rintro (h | rfl)
      · exact h
      · exact hmem
  · simp

theorem setAddP_length (s : List PyScalar) (x : PyScalar) :
    s.length ≤ (setAddP s x).length := by
  unfold setAddP
  split <;> simp

theorem setAddP_nodup (s : List PyScalar) (x : PyScalar) (h : s.Nodup) :
    (setAddP s x).Nodup := by
  unfold setAddP
  split
  · exact h
  · rename_i hmem
    simp [List.nodup_append, h, hmem]

theorem dedupInto_nil (s : List PyScalar) : dedupInto s [] = s := rfl

theorem dedupInto_cons (s : List PyScalar) (x : PyScalar) (xs : List PyScalar) :
    dedupInto s (x :: xs) = dedupInto (setAddP s x) xs := rfl

theorem mem_dedupInto (xs : List PyScalar) :
    ∀ (s : List PyScalar) (v : PyScalar),
      v ∈ dedupInto s xs ↔ v ∈ s ∨ v ∈ xs := by
  induction xs with
  | nil => intro s v; simp [dedupInto_nil]
  | cons x xs ih =>
      intro s v
      rw [dedupInto_cons, ih, mem_setAddP]
      simp only [List.mem_cons]
      tauto

theorem dedupInto_length (xs : List PyScalar) :
    ∀ s : List PyScalar, s.length ≤ (dedupInto s xs).length := by
  induction xs with
  | nil => intro s; simp [dedupInto_nil]
  | cons x xs ih =>
      intro s
      rw [dedupInto_cons]
      exact le_trans (setAddP_length s x) (ih _)

theorem dedupInto_nodup (xs : List PyScalar) :
    ∀ s : List PyScalar, s.Nodup → (dedupInto s xs).Nodup := by
  induction xs with
  | nil => intro s h; simpa [dedupInto_nil] using h
  | cons x xs ih =>
      intro s h
      rw [dedupInto_cons]
      exact ih _ (setAddP_nodup s x h)

theorem foldSetOpt_some (xs : List PyScalar) :
    ∀ s : List PyScalar, foldSetOpt (some s) xs = some (dedupInto s xs) := by
  induction xs with
  | nil => intro s; rfl
  | cons x xs ih =>
      intro s
      show foldSetOpt (some (setAddP s x)) xs = _
      rw [ih, dedupInto_cons]

theorem foldSetOpt_none_cons (x : PyScalar) (xs : List PyScalar) :
    foldSetOpt none (x :: xs) = some (dedupInto [] (x :: xs)) := by
  show foldSetOpt (some (setAddP [] x)) xs = _
  rw [foldSetOpt_some, dedupInto_cons]

theorem addPair_scalar (acc : List (String × List PyScalar)) (k : String) (x : PyScalar) :
    addPair acc k (.scalar x) = .ok (addPairP acc k x) := by
  induction acc with
  | nil => rfl
  | cons kv rest ih =>
      obtain ⟨k', s⟩ := kv
      unfold addPair addPairP
      by_cases h : k' = k
      · simp [h, setAdd, Except.map]
      · simp [h, setAdd, Except.map, ih]

theorem addPair_list (acc : List (String × List PyScalar)) (k : String)
    (vs : List PyScalar) :
    addPair acc k (.list vs) = .error .typeError := by
  induction acc with
  | nil => rfl
  | cons kv rest ih =>
      obtain ⟨k', s⟩ := kv
      unfold addPair
      by_cases h : k' = k
      · simp [h, setAdd, Except.map]
      · simp [h, setAdd, Except.map, ih]

theorem lookupA_addPairP_self (acc : List (String × List PyScalar)) (k : String)
    (x : PyScalar) :
    lookupA (addPairP acc k x) k = some (setAddP ((lookupA acc k).getD []) x) := by
  induction acc with
  | nil => simp [addPairP, lookupA]
  | cons kv rest ih =>
      obtain ⟨k', s⟩ := kv
      unfold addPairP
      by_cases h : k' = k
      · simp [h, lookupA]
      · simp [h, lookupA, ih]

theorem lookupA_addPairP_other (acc : List (String × List PyScalar)) (k k' : String)
    (x : PyScalar) (hne : k ≠ k') :
    lookupA (addPairP acc k x) k' = lookupA acc k' := by
  induction acc with
  | nil => simp [addPairP, lookupA, hne]
  | cons kv rest ih =>
      obtain ⟨k₀, s⟩ := kv
      unfold addPairP
      by_cases h : k₀ = k
      · subst h
        simp [lookupA, hne]
      · simp [h, lookupA, ih]

theorem lookupA_none_iff {α : Type} (l : List (String × α)) (k : String) :
    lookupA l k = none ↔ k ∉ l.map Prod.fst := by
  induction l with
  | nil => simp [lookupA]
  | cons kv rest ih =>
      obtain ⟨k', v⟩ := kv
      unfold lookupA
      by_cases h : k' = k
      · simp [h]
      · simp only [if_neg h, List.map_cons, List.mem_cons, ih]
        constructor
        · intro hn hor
          rcases hor with he | hm
          · exact h he.symm
          · exact hn hm
        · intro hn hm
          exact hn (Or.inr hm)

theorem addPairP_keys (acc : List (String × List PyScalar)) (k : String)
    (x : PyScalar) :
    (addPairP acc k x).map Prod.fst =
      if k ∈ acc.map Prod.fst then acc.map Prod.fst
      else acc.map Prod.fst ++ [k] := by
  induction acc with
  | nil => simp [addPairP]
  | cons kv rest ih =>
      obtain ⟨k', s⟩ := kv
      unfold addPairP
      by_cases h : k' = k
      · subst h
        simp
      · have hks : ¬ k = k' := fun he => absurd he.symm h
        simp only [List.map_cons, if_neg h, ih, List.mem_cons]
        by_cases hk : k ∈ List.map Prod.fst rest
        · simp [hk, hks]
        · simp [hk, hks]

theorem addPairs_eq_pure (m : List (String × PyValue)) :
    ∀ acc, (∀ kv ∈ m, hashable kv.2 = true) →
      addPairs acc m = .ok (addPairsP acc (scalars m)) := by
  induction m with
  | nil => intro acc _; rfl
  | cons kv rest ih =>
      intro acc hh
      obtain ⟨k, v⟩ := kv
      cases v with
      | scalar x =>
          have : scalars ((k, PyValue.scalar x) :: rest) = (k, x) :: scalars rest := by
            simp [scalars]
          rw [this]
          show (match addPair acc k (PyValue.scalar x) with
                | Except.error e => Except.error e
                | Except.ok a => addPairs a rest) = _
          rw [addPair_scalar]
          exact ih _ (fun kv hkv => hh kv (List.mem_cons_of_mem _ hkv))
      | list vs =>
          have := hh (k, .list vs) (List.mem_cons_self _ _)
          simp [hashable] at this

theorem addRead_eq_pure (acc : List (String × List PyScalar)) (m : Dict)
    (hh : ∀ kv ∈ m, hashable kv.2 = true) :
    addRead acc m = .ok (addPairsP acc (scalars m)) := by
  unfold addRead
  by_cases hm : m.isEmpty
  · have : m = [] := by
      cases m
      · rfl
      · simp [List.isEmpty] at hm
    subst this
    simp
    rfl
  · rw [if_neg hm]
    exact addPairs_eq_pure m acc hh

theorem accumulate_eq_pure (ms : List Dict) :
    ∀ acc, (∀ m ∈ ms, ∀ kv ∈ m, hashable kv.2 = true) →
      accumulate acc ms = .ok (accumulateP acc ms) := by
  induction ms with
  | nil => intro acc _; rfl
  | cons m rest ih =>
      intro acc hh
      show (match addRead acc m with
            | Except.error e => Except.error e
            | Except.ok a => accumulate a rest) = _
      rw [addRead_eq_pure acc m (hh m (List.mem_cons_self _ _))]
      exact ih _ (fun m' hm' => hh m' (List.mem_cons_of_mem _ hm'))

theorem lookupA_addPairsP (ps : List (String × PyScalar)) :
    ∀ (acc : List (String × List PyScalar)) (k : String),
      lookupA (addPairsP acc ps) k = foldSetOpt (lookupA acc k) (valsAt ps k) := by
  induction ps with
  | nil => intro acc k; rfl
  | cons kv rest ih =>
      intro acc k
      obtain ⟨k₀, x⟩ := kv
      show lookupA (addPairsP (addPairP acc k₀ x) rest) k = _
      rw [ih]
      by_cases h : k₀ = k
      · subst h
        rw [lookupA_addPairP_self]
        have : valsAt ((k₀, x) :: rest) k₀ = x :: valsAt rest k₀ := by
          simp [valsAt]
        rw [this]
        rcases hl : lookupA acc k₀ with _ | s
        · rfl
        · rfl
      · rw [lookupA_addPairP_other acc k₀ k x h]
        have : valsAt ((k₀, x) :: rest) k = valsAt rest k := by
          simp [valsAt, h]
        rw [this]

theorem addPairsP_keys_nodup (ps : List (String × PyScalar)) :
    ∀ acc : List (String × List PyScalar),
      (acc.map Prod.fst).Nodup → ((addPairsP acc ps).map Prod.fst).Nodup := by
  induction ps with
  | nil => intro acc h; exact h
  | cons kv rest ih =>
      intro acc h
      obtain ⟨k, x⟩ := kv
      show ((addPairsP (addPairP acc k x) rest).map Prod.fst).Nodup
      refine ih _ ?_
      rw [addPairP_keys]
      by_cases hk : k ∈ acc.map Prod.fst
      · simpa [hk] using h
      · simp only [if_neg hk]
        simp [List.nodup_append, h, hk]

theorem accumulateP_keys_nodup (ms : List Dict) :
    ∀ acc : List (String × List PyScalar),
      (acc.map Prod.fst).Nodup → ((accumulateP acc ms).map Prod.fst).Nodup := by
  induction ms with
  | nil => intro acc h; exact h
  | cons m rest ih =>
      intro acc h
      exact ih _ (addPairsP_keys_nodup (scalars m) acc h)

theorem lookupA_accumulateP (ms : List Dict) :
    ∀ (acc : List (String × List PyScalar)) (k : String),
      lookupA (accumulateP acc ms) k = collectOpt (lookupA acc k) ms k := by
  induction ms with
  | nil => intro acc k; rfl
  | cons m rest ih =>
      intro acc k
      show lookupA (accumulateP (addPairsP acc (scalars m)) rest) k = _
      rw [ih, lookupA_addPairsP]
      rfl

theorem collectOpt_some (ms : List Dict) (k : String) :
    ∀ s : List PyScalar,
      collectOpt (some s) ms k =
        some (ms.foldl (fun s m => dedupInto s (valsAt (scalars m) k)) s) := by
  induction ms with
  | nil => intro s; rfl
  | cons m rest ih =>
      intro s
      show collectOpt (foldSetOpt (some s) (valsAt (scalars m) k)) rest k = _
      rw [foldSetOpt_some, ih]
      rfl

theorem observedValues_from (ms : List Dict) (k : String) :
    ∀ s : List PyScalar,
      s.length ≤ (ms.foldl (fun s m => dedupInto s (valsAt (scalars m) k)) s).length := by
  induction ms with
  | nil => intro s; simp
  | cons m rest ih =>
      intro s
      exact le_trans (dedupInto_length (valsAt (scalars m) k) s) (ih _)

theorem collectOpt_master (ms : List Dict) (k : String) :
    collectOpt none ms k =
      if observedValues ms k = [] then none else some (observedValues ms k) := by
  induction ms with
  | nil => rfl
  | cons m rest ih =>
      rcases hx : valsAt (scalars m) k with _ | ⟨x, xs⟩
      · have h1 : collectOpt none (m :: rest) k = collectOpt none rest k := by
          show collectOpt (foldSetOpt none (valsAt (scalars m) k)) rest k = _
          rw [hx]
          rfl
        have h2 : observedValues (m :: rest) k = observedValues rest k := by
          show rest.foldl _ (dedupInto [] (valsAt (scalars m) k)) = _
          rw [hx]
          rfl
        rw [h1, h2, ih]
      · have h1 : collectOpt none (m :: rest) k =
            some (observedValues (m :: rest) k) := by
          show collectOpt (foldSetOpt none (valsAt (scalars m) k)) rest k = _
          rw [hx, foldSetOpt_none_cons, collectOpt_some]
          show _ = some (rest.foldl _ (dedupInto [] (valsAt (scalars m) k)))
          rw [hx]
        have h2 : observedValues (m :: rest) k ≠ [] := by
          have hlen : 1 ≤ (observedValues (m :: rest) k).length := by
            show 1 ≤ ((rest.foldl _ (dedupInto [] (valsAt (scalars m) k))).length)
            rw [hx]
            refine le_trans ?_ (observedValues_from rest k _)
            rw [dedupInto_cons]
            have h3 : 1 ≤ (setAddP [] x).length := by
              simp [setAddP]
            exact le_trans h3 (dedupInto_length xs _)
          intro hnil
          rw [hnil] at hlen
          simp at hlen
        rw [h1, if_neg h2]

theorem mem_valsAt (ps : List (String × PyScalar)) (k : String) (v : PyScalar) :
    v ∈ valsAt ps k ↔ (k, v) ∈ ps := by
  unfold valsAt
  rw [List.mem_filterMap]
  constructor
  · rintro ⟨⟨k₀, x⟩, hmem, hf⟩
    by_cases h : k₀ = k
    · subst h
      simp at hf
      subst hf
      exact hmem
    · simp [h] at hf
  · intro hm
    exact ⟨(k, v), hm, by simp⟩

theorem mem_scalars (m : Dict) (k : String) (x : PyScalar) :
    (k, x) ∈ scalars m ↔ (k, PyValue.scalar x) ∈ m := by
  unfold scalars
  rw [List.mem_filterMap]
  constructor
  · rintro ⟨⟨k₀, v₀⟩, hmem, hf⟩
    cases v₀ with
    | scalar y =>
        simp only [Option.some.injEq, Prod.mk.injEq] at hf
        obtain ⟨rfl, rfl⟩ := hf
        exact hmem
    | list vs => simp at hf
  · intro hm
    exact ⟨(k, PyValue.scalar x), hm, rfl⟩

theorem mem_observedValues_from (ms : List Dict) (k : String) :
    ∀ (s : List PyScalar) (v : PyScalar),
      v ∈ ms.foldl (fun s m => dedupInto s (valsAt (scalars m) k)) s ↔
        v ∈ s ∨ ∃ m ∈ ms, (k, PyValue.scalar v) ∈ m := by
  induction ms with
  | nil => intro s v; simp
  | cons m rest ih =>
      intro s v
      show v ∈ rest.foldl _ (dedupInto s (valsAt (scalars m) k)) ↔ _
      rw [ih, mem_dedupInto, mem_valsAt, mem_scalars]
      simp only [List.mem_cons]
      constructor
      · rintro ((hs | hm) | ⟨m', hm', hv⟩)
        · exact Or.inl hs
        · exact Or.inr ⟨m, Or.inl rfl, hm⟩
        · exact Or.inr ⟨m', Or.inr hm', hv⟩
      · rintro (hs | ⟨m', hm' | hm', hv⟩)
        · exact Or.inl (Or.inl hs)
        · subst hm'
          exact Or.inl (Or.inr hv)
        · exact Or.inr ⟨m', hm', hv⟩

theorem mem_observedValues (ms : List Dict) (k : String) (v : PyScalar) :
    v ∈ observedValues ms k ↔ ∃ m ∈ ms, (k, PyValue.scalar v) ∈ m := by
  rw [observedValues, mem_observedValues_from]
  simp

theorem observedValues_nodup (ms : List Dict) (k : String) :
    (observedValues ms k).Nodup := by
  rw [observedValues]
  have : ∀ (s : List PyScalar), s.Nodup →
      (ms.foldl (fun s m => dedupInto s (valsAt (scalars m) k)) s).Nodup := by
    induction ms with
    | nil => intro s h; exact h
    | cons m rest ih =>
        intro s h
        exact ih _ (dedupInto_nodup _ s h)
  exact this [] List.nodup_nil

/-- The scalar-or-list collapse applied to one key's accumulated set. -/
def collapseSet (s : List PyScalar) : PyValue :=
  match s with
  | [v] => PyValue.scalar v
  | vs => PyValue.list vs

theorem lookupA_finalizeSets (acc : List (String × List PyScalar)) (k : String) :
    lookupA (finalizeSets acc) k = (lookupA acc k).map collapseSet := by
  induction acc with
  | nil => rfl
  | cons kv rest ih =>
      obtain ⟨k₀, s⟩ := kv
      show lookupA ((k₀, collapseSet s) :: finalizeSets rest) k = _
      unfold lookupA
      by_cases h : k₀ = k
      · simp [h]
      · simp only [if_neg h]
        exact ih

theorem finalizeSets_keys (acc : List (String × List PyScalar)) :
    (finalizeSets acc).map Prod.fst = acc.map Prod.fst := by
  induction acc with
  | nil => rfl
  | cons kv rest ih =>
      simp [finalizeSets] at ih ⊢

theorem accumulateP_all_empty (ms : List Dict) :
    ∀ acc, (∀ m ∈ ms, m = []) → accumulateP acc ms = acc := by
  induction ms with
  | nil => intro acc _; rfl
  | cons m rest ih =>
      intro acc hall
      have hm := hall m (List.mem_cons_self _ _)
      show accumulateP (addPairsP acc (scalars m)) rest = acc
      rw [hm]
      exact ih acc (fun m' h' => hall m' (List.mem_cons_of_mem _ h'))

/-- C1: on per-read metadata whose values are scalars (strings/ints — the
only values the grammars produce), the aggregation succeeds and yields a
mapping with exactly one entry per key occurring in any input dict (its key
list is duplicate-free and a key is present exactly when observed): the
entry is the single value when all observed values agree, otherwise the list
of the distinct observed values; empty input dicts contribute no keys, and
an input that is empty or all-empty aggregates to the empty mapping. -/
theorem C1_aggregate_characterization (ms : List Dict)
    (hh : ∀ m ∈ ms, ∀ kv ∈ m, hashable kv.2 = true) :
    ∃ fm, aggregate ms = .ok fm ∧
      (fm.map Prod.fst).Nodup ∧
      (∀ k, (observedValues ms k).Nodup) ∧
      (∀ k v, v ∈ observedValues ms k ↔ ∃ m ∈ ms, (k, PyValue.scalar v) ∈ m) ∧
      (∀ k, lookupA fm k =
          if observedValues ms k = [] then none
          else some (collapseSet (observedValues ms k))) ∧
      ((∀ m ∈ ms, m = []) → fm = []) := by
  refine ⟨finalizeSets (accumulateP [] ms), ?_, ?_, ?_, ?_, ?_, ?_⟩
  · unfold aggregate
    rw [accumulate_eq_pure ms [] hh]
    rfl
  · rw [finalizeSets_keys]
    exact accumulateP_keys_nodup ms [] (by simp)
  · exact fun k => observedValues_nodup ms k
  · exact fun k v => mem_observedValues ms k v
  · intro k
    rw [lookupA_finalizeSets, lookupA_accumulateP]
    show ((collectOpt none ms k).map collapseSet) = _
    rw [collectOpt_master]
    by_cases h : observedValues ms k = []
    · simp [h]
    · simp [h]
  · intro hall
    rw [accumulateP_all_empty ms [] hall]
    rfl

def msC1 : List Dict :=
  [[("a", vstr "x")], [("a", vstr "y"), ("b", vint 5)], []]

/-- C1 witness: the characterization instantiated at a concrete input with a
disagreeing key `a`, an agreeing key `b`, and an empty entry. -/
theorem C1_witness :
    ∃ fm, aggregate msC1 = .ok fm ∧
      (fm.map Prod.fst).Nodup ∧
      (∀ k, (observedValues msC1 k).Nodup) ∧
      (∀ k v, v ∈ observedValues msC1 k ↔ ∃ m ∈ msC1, (k, PyValue.scalar v) ∈ m) ∧
      (∀ k, lookupA fm k =
          if observedValues msC1 k = [] then none
          else some (collapseSet (observedValues msC1 k))) ∧
      ((∀ m ∈ msC1, m = []) → fm = []) :=
  C1_aggregate_characterization msC1 (by decide)

/-! ### C8: re-aggregating an aggregated mapping -/

/-- Re-wrap each field of a `FileMetadata` as a single-key per-read dict
(the shape the idempotence property of the spec feeds back in). -/
def rewrap (fm : Dict) : List Dict := fm.map (fun kv => [kv])

theorem lookupA_append {α : Type} (l₁ l₂ : List (String × α)) (k : String) :
    lookupA (l₁ ++ l₂) k =
      match lookupA l₁ k with
      | some v => some v
      | none => lookupA l₂ k := by
  induction l₁ with
  | nil => rfl
  | cons kv rest ih =>
      obtain ⟨k₀, v⟩ := kv
      by_cases h : k₀ = k
      · simp [lookupA, h]
      · simp [lookupA, h, ih]

theorem addPairP_append_of_none (acc : List (String × List PyScalar))
    (k : String) (x : PyScalar) (h : lookupA acc k = none) :
    addPairP acc k x = acc ++ [(k, setAddP [] x)] := by
  induction acc with
  | nil => rfl
  | cons kv rest ih =>
      obtain ⟨k₀, s⟩ := kv
      have hl : lookupA ((k₀, s) :: rest) k =
          if k₀ = k then some s else lookupA rest k := rfl
      rw [hl] at h
      have hunf : addPairP ((k₀, s) :: rest) k x =
          if k₀ = k then (k₀, setAddP s x) :: rest
          else (k₀, s) :: addPairP rest k x := rfl
      by_cases hk : k₀ = k
      · rw [if_pos hk] at h
        exact absurd h (by simp)
      · rw [if_neg hk] at h
        rw [hunf, if_neg hk, ih h]
        rfl

theorem scalars_id (fm : Dict) (hh : ∀ kv ∈ fm, hashable kv.2 = true) :
    (scalars fm).map (fun kv => (kv.1, PyValue.scalar kv.2)) = fm := by
  induction fm with
  | nil => rfl
  | cons kv rest ih =>
      obtain ⟨k, v⟩ := kv
      cases v with
      | scalar x =>
          have : scalars ((k, PyValue.scalar x) :: rest) = (k, x) :: scalars rest := by
            simp [scalars]
          rw [this, List.map_cons]
          rw [ih (fun kv hkv => hh kv (List.mem_cons_of_mem _ hkv))]
      | list vs =>
          have := hh (k, .list vs) (List.mem_cons_self _ _)
          simp [hashable] at this

theorem finalize_singletons (ps : List (String × PyScalar)) :
    finalizeSets (ps.map (fun kv => (kv.1, [kv.2]))) =
      ps.map (fun kv => (kv.1, PyValue.scalar kv.2)) := by
  induction ps with
  | nil => rfl
  | cons kv rest ih =>
      simp only [List.map_cons, finalizeSets] at ih ⊢
      rw [ih]

theorem accumulate_rewrap (fm : Dict) :
    ∀ acc : List (String × List PyScalar),
      (∀ kv ∈ fm, hashable kv.2 = true) →
      (∀ k, k ∈ fm.map Prod.fst → lookupA acc k = none) →
      (fm.map Prod.fst).Nodup →
      accumulate acc (rewrap fm) =
        .ok (acc ++ (scalars fm).map (fun kv => (kv.1, [kv.2]))) := by
  induction fm with
  | nil =>
      intro acc _ _ _
      show Except.ok acc = _
      simp [scalars]
  | cons kv rest ih =>
      intro acc hh hnone hnd
      obtain ⟨k, v⟩ := kv
      cases v with
      | list vs =>
          have := hh (k, .list vs) (List.mem_cons_self _ _)
          simp [hashable] at this
      | scalar x =>
          show (match addRead acc [(k, PyValue.scalar x)] with
                | Except.error e => Except.error e
                | Except.ok a => accumulate a (rewrap rest)) = _
          have h1 : addRead acc [(k, PyValue.scalar x)] =
              .ok (addPairP acc k x) := by
            show (match addPair acc k (PyValue.scalar x) with
                  | Except.error e => Except.error e
                  | Except.ok a => addPairs a []) = _
            rw [addPair_scalar]
            rfl
          have hk0 : lookupA acc k = none :=
            hnone k (by simp)
          have h2 : addPairP acc k x = acc ++ [(k, [x])] := by
            rw [addPairP_append_of_none acc k x hk0]
            rfl
          rw [h1, h2]
          show accumulate (acc ++ [(k, [x])]) (rewrap rest) = _
          have hnd' : (rest.map Prod.fst).Nodup := by
            simpa using hnd.of_cons
          have hknotin : k ∉ rest.map Prod.fst := by
            simp only [List.map_cons] at hnd
            exact (List.nodup_cons.mp hnd).1
          have hnone' : ∀ k', k' ∈ rest.map Prod.fst →
              lookupA (acc ++ [(k, [x])]) k' = none := by
            intro k' hk'
            rw [lookupA_append]
            rw [hnone k' (by simp [hk'])]
            have hne : ¬ k = k' := by
              intro he
              rw [he] at hknotin
              exact hknotin hk'
            simp [lookupA, hne]
          rw [ih (acc ++ [(k, [x])])
                (fun kv hkv => hh kv (List.mem_cons_of_mem _ hkv)) hnone' hnd']
          have hs : scalars ((k, PyValue.scalar x) :: rest) = (k, x) :: scalars rest := by
            simp [scalars]
          rw [hs, List.map_cons, List.append_assoc]
          rfl

theorem accumulate_rewrap_err (fm : Dict) :
    ∀ acc : List (String × List PyScalar),
      (∃ kv ∈ fm, hashable kv.2 = false) →
      ∃ e, accumulate acc (rewrap fm) = .error e := by
  induction fm with
  | nil => intro acc h; simp at h
  | cons kv rest ih =>
      intro acc hex
      obtain ⟨k, v⟩ := kv
      cases v with
      | list vs =>
          refine ⟨.typeError, ?_⟩
          show (match addRead acc [(k, PyValue.list vs)] with
                | Except.error e => Except.error e
                | Except.ok a => accumulate a (rewrap rest)) = _
          have h1 : addRead acc [(k, PyValue.list vs)] = .error .typeError := by
            show (match addPair acc k (PyValue.list vs) with
                  | Except.error e => Except.error e
                  | Except.ok a => addPairs a []) = _
            rw [addPair_list]
          rw [h1]
      | scalar x =>
          have hex' : ∃ kv ∈ rest, hashable kv.2 = false := by
            rcases hex with ⟨kv', hmem, hfalse⟩
            rcases List.mem_cons.mp hmem with rfl | hmem'
            · simp [hashable] at hfalse
            · exact ⟨kv', hmem', hfalse⟩
          show ∃ e, (match addRead acc [(k, PyValue.scalar x)] with
                | Except.error e => Except.error e
                | Except.ok a => accumulate a (rewrap rest)) = .error e
          have h1 : addRead acc [(k, PyValue.scalar x)] =
              .ok (addPairP acc k x) := by
            show (match addPair acc k (PyValue.scalar x) with
                  | Except.error e => Except.error e
                  | Except.ok a => addPairs a []) = _
            rw [addPair_scalar]
            rfl
          rw [h1]
          show ∃ e, accumulate (addPairP acc k x) (rewrap rest) = Except.error e
          exact ih _ hex'

/-- C8 counterexample: aggregating two disagreeing per-read entries yields a
list-valued field; re-wrapping that output as single-key per-read entries
and aggregating again raises `TypeError` (a Python list is unhashable, so
`set.add` fails) and is caught to `{}` — not the identical mapping the claim
asserts. -/
theorem C8_counterexample :
    aggregate [[("a", vstr "x")], [("a", vstr "y")]] =
      .ok [("a", PyValue.list [.str "x", .str "y"])] ∧
    aggregate (rewrap [("a", PyValue.list [.str "x", .str "y"])]) =
      .error .typeError ∧
    aggregateCaught (rewrap [("a", PyValue.list [.str "x", .str "y"])]) = [] ∧
    [("a", PyValue.list [PyScalar.str "x", PyScalar.str "y"])] ≠ ([] : Dict) := by
  decide

/-- C8 amended: re-aggregating a re-wrapped `FileMetadata` reproduces it
exactly when every field collapsed to a scalar; as soon as any field is a
(distinct-values) list, the re-aggregation raises `TypeError` on the
unhashable list and the surrounding `except` collapses the result to the
empty mapping instead. -/
theorem C8_amended (fm : Dict) :
    ((fm.map Prod.fst).Nodup → (∀ kv ∈ fm, hashable kv.2 = true) →
        aggregate (rewrap fm) = .ok fm) ∧
    ((∃ kv ∈ fm, hashable kv.2 = false) → aggregateCaught (rewrap fm) = []) := by
  constructor
  · intro hnd hh
    unfold aggregate
    rw [accumulate_rewrap fm [] hh (by intro k _; rfl) hnd]
    show Except.ok (finalizeSets ((scalars fm).map (fun kv => (kv.1, [kv.2])))) = _
    rw [finalize_singletons, scalars_id fm hh]
  · intro hex
    obtain ⟨e, he⟩ := accumulate_rewrap_err fm [] hex
    unfold aggregateCaught aggregate
    rw [he]
    rfl

/-- C8 witness: the amended scalar-only case at a concrete mapping. -/
theorem C8_amended_witness :
    aggregate (rewrap [("a", vstr "x"), ("b", vint 5)]) =
      .ok [("a", vstr "x"), ("b", vint 5)] :=
  (C8_amended [("a", vstr "x"), ("b", vint 5)]).1 (by decide) (by decide)

/-! ### C2: the sequential driver has no per-read exception handling -/

/-- C2 counterexample: a standard-form Nanopore read with no `start_time`
pair raises `ValueError` inside `extract_metadata_from_read`; the sequential
driver has no per-read `try`, so the exception aborts the whole loop — the
second (perfectly valid) read is never processed and no per-read list is
produced, contradicting "one entry per input read name … proceeds to the
next read". -/
theorem C2_counterexample :
    extract_metadata_sequentially (.ont ontInit) [ontBadRead, ontRead1] =
      .error .valueError := by
  decide

theorem step_rejected (g g' : TechInstance) (rn : String) (e : Entry)
    (hrej : check_read_name_convention g rn = false)
    (hok : extract_metadata_from_read g rn = .ok (g', e)) :
    e = .fresh [] := by
  cases g with
  | illumina =>
      have h2 : illuminaAcceptsExtr rn = false := hrej
      simp [extract_metadata_from_read, illuminaExtract, h2, Except.map] at hok
      exact hok.2.symm
  | pacbio =>
      have h2 : pacbioAcceptsExtr rn = false := hrej
      simp [extract_metadata_from_read, pacbioExtrExtract, h2, Except.map] at hok
      exact hok.2.symm
  | ont st =>
      have h2 : (nanopore_pattern rn || nanopore_pattern_non_std rn) = false := hrej
      simp [extract_metadata_from_read, ontExtract, h2, Except.map] at hok
      exact hok.2.symm
  | tenx vals =>
      have h2 : tenx_pattern rn = false := hrej
      simp [extract_metadata_from_read, tenxExtract, h2, Except.map] at hok
      exact hok.2.symm
  | dovetail md =>
      have h2 : dovetail_pattern rn = false := hrej
      simp [extract_metadata_from_read, dovetailExtract, h2, Except.map] at hok
      exact hok.2.symm
  | other => simp [check_read_name_convention] at hrej
  | unknown => simp [extract_metadata_from_read] at hok

theorem step_preserves_check (g g' : TechInstance) (rn : String) (e : Entry)
    (hok : extract_metadata_from_read g rn = .ok (g', e)) :
    ∀ rn', check_read_name_convention g' rn' = check_read_name_convention g rn' := by
  cases g with
  | illumina =>
      rcases hstep : illuminaExtract rn with e0 | d
      · simp [extract_metadata_from_read, hstep, Except.map] at hok
      · simp [extract_metadata_from_read, hstep, Except.map] at hok
        rw [← hok.1]
        intro rn'
        rfl
  | pacbio =>
      rcases hstep : pacbioExtrExtract rn with e0 | d
      · simp [extract_metadata_from_read, hstep, Except.map] at hok
      · simp [extract_metadata_from_read, hstep, Except.map] at hok
        rw [← hok.1]
        intro rn'
        rfl
  | ont st =>
      rcases hstep : ontExtract st rn with e0 | p
      · simp [extract_metadata_from_read, hstep, Except.map] at hok
      · simp [extract_metadata_from_read, hstep, Except.map] at hok
        rw [← hok.1]
        intro rn'
        rfl
  | tenx vals =>
      rcases hstep : tenxExtract vals rn with e0 | p
      · simp [extract_metadata_from_read, hstep, Except.map] at hok
      · simp [extract_metadata_from_read, hstep, Except.map] at hok
        rw [← hok.1]
        intro rn'
        rfl
  | dovetail md =>
      rcases hstep : dovetailExtract md rn with e0 | p
      · simp [extract_metadata_from_read, hstep, Except.map] at hok
      · simp [extract_metadata_from_read, hstep, Except.map] at hok
        rw [← hok.1]
        intro rn'
        rfl
  | other =>
      simp [extract_metadata_from_read] at hok
      rw [← hok.1]
      intro rn'
      rfl
  | unknown => simp [extract_metadata_from_read] at hok

theorem driver_ok_characterization (rns : List String) :
    ∀ (g g' : TechInstance) (es : List Entry),
      extract_metadata_sequentially g rns = .ok (g', es) →
      es.length = rns.length ∧
      (∀ i rn e, rns.get? i = some rn → es.get? i = some e →
          check_read_name_convention g rn = false → observe g' e = []) := by
  induction rns with
  | nil =>
      intro g g' es h
      simp [extract_metadata_sequentially] at h
      obtain ⟨rfl, rfl⟩ := h
      refine ⟨rfl, ?_⟩
      intro i rn e hrn
      simp at hrn
  | cons rn rest ih =>
      intro g g' es h
      rcases hstep : extract_metadata_from_read g rn with e0 | p
      · unfold extract_metadata_sequentially at h
        rw [hstep] at h
        exact absurd h (by simp)
      · obtain ⟨g1, e1⟩ := p
        unfold extract_metadata_sequentially at h
        rw [hstep] at h
        have h2 : (match extract_metadata_sequentially g1 rest with
                   | Except.error e =>
                       (Except.error e : Except PyErr (TechInstance × List Entry))
                   | Except.ok q => Except.ok (q.1, e1 :: q.2)) =
            Except.ok (g', es) := h
        clear h
        rcases hrest : extract_metadata_sequentially g1 rest with e2 | q
        · rw [hrest] at h2
          exact absurd h2 (by simp)
        · obtain ⟨g2, es2⟩ := q
          rw [hrest] at h2
          simp at h2
          obtain ⟨rfl, rfl⟩ := h2
          obtain ⟨ihlen, ihrej⟩ := ih g1 g2 es2 hrest
          refine ⟨by simp [ihlen], ?_⟩
          intro i rn' e' hrn' he' hrej
          cases i with
          | zero =>
              rw [List.get?_cons_zero] at hrn' he'
              obtain rfl := Option.some.inj hrn'
              obtain rfl := Option.some.inj he'
              have he1 := step_rejected g g1 rn e1 hrej hstep
              subst he1
              cases g2 <;> rfl
          | succ i =>
              rw [List.get?_cons_succ] at hrn' he'
              have hchk : check_read_name_convention g1 rn' = false := by
                rw [step_preserves_check g g1 rn e1 hstep rn']
                exact hrej
              exact ihrej i rn' e' hrn' he' hchk

/-- C2 amended: when no read raises, the driver returns one entry per input
read name, in input order, with empty entries for rejected reads; but an
exception raised while processing a single read propagates out of the loop
(no per-read catch exists), aborting all remaining reads, and is only caught
by the file-level `extract_metadata`, which returns the empty mapping for
the whole file. -/
theorem C2_amended :
    (∀ (g g' : TechInstance) (rns : List String) (es : List Entry),
        extract_metadata_sequentially g rns = .ok (g', es) →
        es.length = rns.length ∧
        (∀ i rn e, rns.get? i = some rn → es.get? i = some e →
            check_read_name_convention g rn = false → observe g' e = [])) ∧
    (∀ (g : TechInstance) (rns : List String) (e : PyErr),
        extract_metadata_sequentially g rns = .error e →
        extract_metadata g rns = []) := by
  constructor
  · intro g g' rns es h
    exact driver_ok_characterization rns g g' es h
  · intro g rns e h
    unfold extract_metadata
    rw [h]

/-- C2 amended witness: the aborted file from the counterexample yields the
empty file-level mapping. -/
theorem C2_amended_witness :
    extract_metadata (.ont ontInit) [ontBadRead, ontRead1] = [] :=
  C2_amended.2 (.ont ontInit) [ontBadRead, ontRead1] .valueError (by decide)

/-! ### C9: the Nanopore grammar returns its instance dict -/

theorem lookupA_cons {α : Type} (k₀ k : String) (v : α) (rest : List (String × α)) :
    lookupA ((k₀, v) :: rest) k = if k₀ = k then some v else lookupA rest k := rfl

theorem lookupA_dictInsert (d : Dict) (k₀ k : String) (v₀ : PyValue) :
    lookupA (dictInsert d k₀ v₀) k = if k₀ = k then some v₀ else lookupA d k := by
  induction d with
  | nil =>
      show lookupA [(k₀, v₀)] k = _
      rw [lookupA_cons]
  | cons kv rest ih =>
      obtain ⟨k₁, v₁⟩ := kv
      show lookupA (if k₁ = k₀ then (k₀, v₀) :: rest
                    else (k₁, v₁) :: dictInsert rest k₀ v₀) k = _
      by_cases h1 : k₁ = k₀
      · subst h1
        rw [if_pos rfl, lookupA_cons, lookupA_cons]
        by_cases h2 : k₁ = k
        · rw [if_pos h2, if_pos h2]
        · rw [if_neg h2, if_neg h2, if_neg h2]
      · rw [if_neg h1, lookupA_cons, lookupA_cons, ih]
        by_cases h2 : k₁ = k
        · have hne : ¬ k₀ = k := fun he => h1 (h2.trans he.symm)
          rw [if_pos h2, if_neg hne, if_pos h2]
        · rw [if_neg h2, if_neg h2]

theorem lookupA_dictPop_other (d : Dict) (k₀ k : String) (hne : k ≠ k₀) :
    lookupA (dictPop d k₀) k = lookupA d k := by
  induction d with
  | nil => rfl
  | cons kv rest ih =>
      obtain ⟨k₁, v₁⟩ := kv
      show lookupA (if k₁ = k₀ then rest else (k₁, v₁) :: dictPop rest k₀) k = _
      by_cases h1 : k₁ = k₀
      · rw [if_pos h1, lookupA_cons]
        have hne2 : ¬ k₁ = k := fun he => hne (he.symm.trans h1)
        rw [if_neg hne2]
      · rw [if_neg h1, lookupA_cons, lookupA_cons, ih]

theorem processPairs_preserves (ps : List String) :
    ∀ (md md' : Dict), processPairs md ps = .ok md' →
      ∀ k v, lookupA md k = some v → ∃ v', lookupA md' k = some v' := by
  induction ps with
  | nil =>
      intro md md' h k v hv
      simp [processPairs] at h
      subst h
      exact ⟨v, hv⟩
  | cons p rest ih =>
      intro md md' h k v hv
      unfold processPairs at h
      rcases hsp : splitChar '=' p.toList with _ | ⟨g1, gs⟩
      · rw [hsp] at h
        exact absurd h (by simp)
      · rcases gs with _ | ⟨g2, gs2⟩
        · rw [hsp] at h
          exact absurd h (by simp)
        · rcases gs2 with _ | ⟨g3, gs3⟩
          · rw [hsp] at h
            have h' : processPairs
                (if String.mk g1 = "read" || String.mk g1 = "ch" then md
                 else dictInsert md (String.mk g1) (vstr (String.mk g2))) rest =
                Except.ok md' := h
            clear h
            by_cases hk : (String.mk g1 = "read" || String.mk g1 = "ch") = true
            · rw [if_pos hk] at h'
              exact ih md md' h' k v hv
            · rw [if_neg hk] at h'
              by_cases he : String.mk g1 = k
              · exact ih _ md' h' k (vstr (String.mk g2))
                  (by rw [lookupA_dictInsert, if_pos he])
              · exact ih _ md' h' k v
                  (by rw [lookupA_dictInsert, if_neg he]; exact hv)
          · rw [hsp] at h
            exact absurd h (by simp)

theorem ontExtract_std (st st' : OntState) (rn : String) (e : Entry)
    (hstd : nanopore_pattern rn = true)
    (hok : ontExtract st rn = .ok (st', e)) :
    e = .shared ∧
    ∀ k v, lookupA st.metadata k = some v → k ≠ "start_time" →
      ∃ v', lookupA st'.metadata k = some v' := by
  have hcond : (nanopore_pattern rn || nanopore_pattern_non_std rn) = true := by
    simp [hstd]
  unfold ontExtract at hok
  rw [hcond, hstd] at hok
  simp only [Bool.not_true, Bool.false_eq_true, if_false, eq_self_iff_true,
    if_true] at hok
  rcases hpp : processPairs st.metadata ((wsSplit rn.toList).map String.mk).tail
    with e1 | md
  · rw [hpp] at hok
    exact absurd hok (by simp)
  · rw [hpp] at hok
    have hok2 : (match getStartTimeStr md with
                 | Except.error e => (Except.error e : Except PyErr (OntState × Entry))
                 | Except.ok stime =>
                   match parseStartTime stime with
                   | Except.error e => Except.error e
                   | Except.ok dt =>
                     Except.ok (⟨some (ontNewEarliest st dt),
                       dictPop (dictInsert md "earliest_start_date"
                         (vstr (formatDate (ontNewEarliest st dt)))) "start_time"⟩,
                       Entry.shared)) = Except.ok (st', e) := hok
    clear hok
    rcases hst : getStartTimeStr md with e2 | stime
    · rw [hst] at hok2
      exact absurd hok2 (by simp)
    · rw [hst] at hok2
      have hok3 : (match parseStartTime stime with
                   | Except.error e => (Except.error e : Except PyErr (OntState × Entry))
                   | Except.ok dt =>
                     Except.ok (⟨some (ontNewEarliest st dt),
                       dictPop (dictInsert md "earliest_start_date"
                         (vstr (formatDate (ontNewEarliest st dt)))) "start_time"⟩,
                       Entry.shared)) = Except.ok (st', e) := hok2
      clear hok2
      rcases hpt : parseStartTime stime with e3 | dt
      · rw [hpt] at hok3
        exact absurd hok3 (by simp)
      · rw [hpt] at hok3
        have hok4 : (Except.ok (⟨some (ontNewEarliest st dt),
            dictPop (dictInsert md "earliest_start_date"
              (vstr (formatDate (ontNewEarliest st dt)))) "start_time"⟩,
            Entry.shared) : Except PyErr (OntState × Entry)) =
            Except.ok (st', e) := hok3
        clear hok3
        simp only [Except.ok.injEq, Prod.mk.injEq] at hok4
        obtain ⟨hst', he⟩ := hok4
        refine ⟨he.symm, ?_⟩
        intro k v hv hkne
        obtain ⟨v1, hv1⟩ := processPairs_preserves _ st.metadata md hpp k v hv
        rw [← hst']
        show ∃ v', lookupA (dictPop (dictInsert md "earliest_start_date" _)
          "start_time") k = some v'
        rw [lookupA_dictPop_other _ _ _ hkne, lookupA_dictInsert]
        by_cases hke : "earliest_start_date" = k
        · exact ⟨_, by rw [if_pos hke]⟩
        · exact ⟨v1, by rw [if_neg hke]; exact hv1⟩

theorem ontExtract_accepted_shared (st st' : OntState) (rn : String) (e : Entry)
    (hacc : (nanopore_pattern rn || nanopore_pattern_non_std rn) = true)
    (hok : ontExtract st rn = .ok (st', e)) : e = .shared := by
  by_cases hstd : nanopore_pattern rn = true
  · exact (ontExtract_std st st' rn e hstd hok).1
  · have hstd' : nanopore_pattern rn = false := by
      cases h : nanopore_pattern rn
      · rfl
      · exact absurd h hstd
    have hns := hacc
    rw [hstd'] at hns
    simp at hns
    simp [ontExtract, hstd', hns] at hok
    exact hok.2.symm

theorem ont_driver_replicate (rns : List String) :
    ∀ (st0 : OntState) (g' : TechInstance) (es : List Entry),
      extract_metadata_sequentially (.ont st0) rns = .ok (g', es) →
      (∀ rn ∈ rns, (nanopore_pattern rn || nanopore_pattern_non_std rn) = true) →
      ∃ stF : OntState, g' = .ont stF ∧
        es.map (observe g') = List.replicate rns.length stF.metadata := by
  induction rns with
  | nil =>
      intro st0 g' es h _
      simp [extract_metadata_sequentially] at h
      obtain ⟨rfl, rfl⟩ := h
      exact ⟨st0, rfl, rfl⟩
  | cons rn rest ih =>
      intro st0 g' es h hacc
      rcases hoe : ontExtract st0 rn with e0 | p
      · unfold extract_metadata_sequentially at h
        simp [extract_metadata_from_read, hoe, Except.map] at h
      · obtain ⟨st1, e1⟩ := p
        have hstep : extract_metadata_from_read (.ont st0) rn =
            .ok (.ont st1, e1) := by
          simp [extract_metadata_from_read, hoe, Except.map]
        unfold extract_metadata_sequentially at h
        rw [hstep] at h
        have h2 : (match extract_metadata_sequentially (.ont st1) rest with
                   | Except.error e =>
                       (Except.error e : Except PyErr (TechInstance × List Entry))
                   | Except.ok q => Except.ok (q.1, e1 :: q.2)) =
            Except.ok (g', es) := h
        clear h
        rcases hrest : extract_metadata_sequentially (.ont st1) rest with e2 | q
        · rw [hrest] at h2
          exact absurd h2 (by simp)
        · obtain ⟨g2, es2⟩ := q
          rw [hrest] at h2
          simp at h2
          obtain ⟨rfl, rfl⟩ := h2
          obtain ⟨stF, hgF, hmap⟩ :=
            ih st1 g2 es2 hrest (fun rn' hm => hacc rn' (List.mem_cons_of_mem _ hm))
          have he1 : e1 = .shared :=
            ontExtract_accepted_shared st0 st1 rn e1
              (hacc rn (List.mem_cons_self _ _)) hoe
          subst he1
          subst hgF
          refine ⟨stF, rfl, ?_⟩
          simp only [List.map_cons, hmap, List.length_cons]
          rw [List.replicate_succ]
          rfl

/-- C9: on an accepted standard-form read, the Nanopore grammar returns the
instance's single shared `self.metadata` object — so the returned mapping
still carries every (non-`start_time`) key accumulated from the previously
processed reads — and for a run of accepted reads the entries the sequential
driver has collected, read at aggregation time, are all the one shared dict:
the list is `replicate n` of the state after the *last* read. -/
theorem C9_ont_shared_metadata :
    (∀ (st st' : OntState) (rn : String) (e : Entry),
        nanopore_pattern rn = true →
        ontExtract st rn = .ok (st', e) →
        e = .shared ∧
        ∀ k v, lookupA st.metadata k = some v → k ≠ "start_time" →
          ∃ v', lookupA st'.metadata k = some v') ∧
    (∀ (st0 : OntState) (rns : List String) (g' : TechInstance) (es : List Entry),
        extract_metadata_sequentially (.ont st0) rns = .ok (g', es) →
        (∀ rn ∈ rns, (nanopore_pattern rn || nanopore_pattern_non_std rn) = true) →
        ∃ stF : OntState, g' = .ont stF ∧
          es.map (observe g') = List.replicate rns.length stF.metadata) := by
  constructor
  · intro st st' rn e hstd hok
    exact ontExtract_std st st' rn e hstd hok
  · intro st0 rns g' es h hacc
    exact ont_driver_replicate rns st0 g' es h hacc

/-- C9 witness: two accepted reads; both collected entries observe the final
state's dict. -/
theorem C9_witness :
    ∃ stF : OntState, TechInstance.ont ontSt2 = .ont stF ∧
      ([Entry.shared, Entry.shared].map (observe (.ont ontSt2))) =
        List.replicate [ontRead1, ontRead2].length stF.metadata :=
  C9_ont_shared_metadata.2 ontInit [ontRead1, ontRead2] (.ont ontSt2)
    [.shared, .shared] (by decide) (by decide)

/-! ### C4: PacBio movie name -/

/-- C4 counterexample: the PacBio grammar of `src/seqsleuth/seqtech.py`
(the one `extract_metadata.py`/`main.py` import) truncates `movie_name` with
`parts[0].split("_")[0]`: on the Scenario-B read it returns `"m64017"`, not
the entire first slash-delimited segment `"m64017_191118_150849"` the claim
states. -/
theorem C4_counterexample :
    pacbioMainExtract scenarioB =
      .ok [("movie_name", vstr "m64017"), ("read_type", vstr "CCS")] ∧
    vstr "m64017" ≠ vstr "m64017_191118_150849" := by
  decide

/-- C4 amended: the PacBio grammar of `extractors/seqtech.py` (used by
`ReadNameMetadataExtractor`) behaves as the claim says — on the Scenario-B
read it yields the whole first segment and `"CCS"`, and in general, for any
read it accepts, `movie_name` is the entire first slash-delimited segment
and `read_type` is `"CCS"` exactly when the third slash-delimited segment is
`"ccs"`, else `"CLR"`.  The older grammar in `src/seqsleuth/seqtech.py`
instead reports only the part of the first segment before its first
underscore. -/
theorem C4_amended :
    (pacbioExtrExtract scenarioB =
        .ok [("movie_name", vstr "m64017_191118_150849"),
             ("read_type", vstr "CCS")]) ∧
    (∀ rn : String, pacbioAcceptsExtr rn = true →
        ∃ p0 p1 p2 rest, splitChar '/' rn.toList = p0 :: p1 :: p2 :: rest ∧
          pacbioExtrExtract rn =
            .ok [("movie_name", vstr (String.mk p0)),
                 ("read_type", vstr (if String.mk p2 = "ccs" then "CCS" else "CLR"))]) ∧
    (∀ rn : String, pacbioAcceptsMain rn = true →
        ∃ p0 p1 p2 rest, splitChar '/' rn.toList = p0 :: p1 :: p2 :: rest ∧
          pacbioMainExtract rn =
            .ok [("movie_name", vstr (String.mk ((splitChar '_' p0).headD []))),
                 ("read_type", vstr (if String.mk p2 = "ccs" then "CCS" else "CLR"))]) := by
  refine ⟨by decide, ?_, ?_⟩
  · intro rn h
    rcases hs : splitChar '/' rn.toList with _ | ⟨p0, _ | ⟨p1, _ | ⟨p2, rest⟩⟩⟩
    · unfold pacbioAcceptsExtr pacbio_pattern_clr pacbio_pattern_ccs_extr at h
      rw [hs] at h
      simp at h
    · unfold pacbioAcceptsExtr pacbio_pattern_clr pacbio_pattern_ccs_extr at h
      rw [hs] at h
      simp at h
    · unfold pacbioAcceptsExtr pacbio_pattern_clr pacbio_pattern_ccs_extr at h
      rw [hs] at h
      simp at h
    · refine ⟨p0, p1, p2, rest, rfl, ?_⟩
      unfold pacbioExtrExtract
      rw [h]
      simp only [Bool.not_true, Bool.false_eq_true, if_false]
      rw [hs]
      simp [listIdx]
  · intro rn h
    rcases hs : splitChar '/' rn.toList with _ | ⟨p0, _ | ⟨p1, _ | ⟨p2, rest⟩⟩⟩
    · unfold pacbioAcceptsMain pacbio_pattern_clr pacbio_pattern_ccs_main at h
      rw [hs] at h
      simp at h
    · unfold pacbioAcceptsMain pacbio_pattern_clr pacbio_pattern_ccs_main at h
      rw [hs] at h
      simp at h
    · unfold pacbioAcceptsMain pacbio_pattern_clr pacbio_pattern_ccs_main at h
      rw [hs] at h
      simp at h
    · refine ⟨p0, p1, p2, rest, rfl, ?_⟩
      unfold pacbioMainExtract
      rw [h]
      simp only [Bool.not_true, Bool.false_eq_true, if_false]
      rw [hs]
      simp [listIdx]

/-- C4 amended witness: the general extractors-grammar rule instantiated at
the Scenario-B read. -/
theorem C4_amended_witness :
    ∃ p0 p1 p2 rest, splitChar '/' scenarioB.toList = p0 :: p1 :: p2 :: rest ∧
      pacbioExtrExtract scenarioB =
        .ok [("movie_name", vstr (String.mk p0)),
             ("read_type", vstr (if String.mk p2 = "ccs" then "CCS" else "CLR"))] :=
  C4_amended.2.1 scenarioB (by decide)
